import Mathlib

/-!
# corn: a minute-granularity job scheduler

Shallow embedding of `internal/scheduler/scheduler.go` and `cmd/corn/main.go`.

Conventions of the embedding.

* A Go `string` is a `List Char` (a valid UTF-8 string, rune by rune).  The
  library functions used by the program (`strings.Fields`, `strings.Split`,
  `strings.TrimSpace`, `strconv.Atoi`, the `time` package) are not part of the
  repository; they are written out here after their documented behaviour.
* A Go `int` is a 64-bit two's complement integer.  It is an `Int` here, and the
  one place where the program does arithmetic on it that can leave the range
  (the counter of the wildcard loop) wraps explicitly.
* A `map[int]bool` in which every stored value is `true` is the finite set of
  its keys; the lookup `m[k]` (which is `false` for an absent key and for the
  nil map) is membership.
* A call that does not return is `none`.
-/

namespace Corn

/-- A Go string, rune by rune. -/
abbrev GoString := List Char

/-! ## Machine integers -/

/-- Largest value of a Go `int` (64 bit). -/
def maxInt : Int := 2 ^ 63 - 1

/-- Smallest value of a Go `int` (64 bit). -/
def minInt : Int := -(2 ^ 63)

/-- The values of a Go `int`. -/
def isInt (v : Int) : Prop := minInt ≤ v ∧ v ≤ maxInt

instance (v : Int) : Decidable (isInt v) := by
  unfold isInt; infer_instance

/-- Two's complement wrap-around of an arithmetic result into the `int` range. -/
def wrapInt (v : Int) : Int := (v + 2 ^ 63) % 2 ^ 64 - 2 ^ 63

/-! ## `unicode.IsSpace`, `strings.Fields`, `strings.Split`, `strings.TrimSpace` -/

/-- White space as `unicode.IsSpace` defines it, the runes with Unicode's White
Space property: in Latin-1 `'\t' '\n' '\v' '\f' '\r' ' '`, U+0085 and U+00A0; beyond
it U+1680, U+2000 to U+200A, U+2028, U+2029, U+202F, U+205F and U+3000. -/
def isSpace (c : Char) : Bool :=
  let n := c.toNat
  (9 ≤ n && n ≤ 13) || n == 32 || n == 0x85 || n == 0xA0 || n == 0x1680 ||
  (0x2000 ≤ n && n ≤ 0x200A) || n == 0x2028 || n == 0x2029 || n == 0x202F ||
  n == 0x205F || n == 0x3000

/-- Scan of `strings.Fields`: `cur` holds, reversed, the runes of the field
being read. -/
def fieldsAux : GoString → GoString → List GoString
  | cur, [] => if cur = [] then [] else [cur.reverse]
  | cur, c :: cs =>
    if isSpace c then
      if cur = [] then fieldsAux [] cs else cur.reverse :: fieldsAux [] cs
    else fieldsAux (c :: cur) cs

/-- Function `strings.Fields`: the maximal runs of non-space runes of `s`, in
order. -/
def Fields (s : GoString) : List GoString := fieldsAux [] s

/-- Scan of `strings.Split` for a one-rune separator: `cur` holds, reversed, the
runes of the piece being read. -/
def splitAux (sep : Char) : GoString → GoString → List GoString
  | cur, [] => [cur.reverse]
  | cur, c :: cs =>
    if c = sep then cur.reverse :: splitAux sep [] cs else splitAux sep (c :: cur) cs

/-- Function `strings.Split(s, sep)` for a one-rune separator: the pieces of `s`
between the separators, empty pieces included; always at least one piece. -/
def Split (s : GoString) (sep : Char) : List GoString := splitAux sep [] s

/-- Function `strings.Join(elems, sep)`. -/
def Join (elems : List GoString) (sep : GoString) : GoString :=
  match elems with
  | [] => []
  | [e] => e
  | e :: rest => e ++ sep ++ Join rest sep

/-- Function `strings.TrimSpace`: `s` without its leading and trailing white
space. -/
def TrimSpace (s : GoString) : GoString :=
  ((s.dropWhile isSpace).reverse.dropWhile isSpace).reverse

/-- Function `strings.HasPrefix`. -/
def HasPrefix (s pre : GoString) : Bool := pre.isPrefixOf s

/-! ## `strconv.Atoi` -/

/-- A decimal digit, `'0'` to `'9'`. -/
def isDigit (c : Char) : Bool := 48 ≤ c.toNat && c.toNat ≤ 57

/-- Decimal digits read left to right onto the accumulator `n`; `none` at the
first rune that is not a digit. -/
def parseDigits : GoString → Nat → Option Nat
  | [], n => some n
  | c :: cs, n =>
    if isDigit c then parseDigits cs (n * 10 + (c.toNat - 48)) else none

/-- A non-empty string of decimal digits and its value. -/
def parseUint (s : GoString) : Option Nat :=
  if s = [] then none else parseDigits s 0

/-- A base-10 integer literal, an optional sign `+` or `-` followed by at least
one decimal digit, and its value as an unbounded integer. -/
def intLiteral (s : GoString) : Option Int :=
  match s with
  | '+' :: ds => (parseUint ds).map fun n => (n : Int)
  | '-' :: ds => (parseUint ds).map fun n => -(n : Int)
  | ds => (parseUint ds).map fun n => (n : Int)

/-- Function `strconv.Atoi`: the value of a base-10 integer literal that fits an
`int`; `none` stands for a non-nil error (bad syntax, or value out of the range
of `int`). -/
def Atoi (s : GoString) : Option Int :=
  match intLiteral s with
  | some v => if isInt v then some v else none
  | none => none

/-! ## `parseField` -/

/-- The errors `parseField` builds with `fmt.Errorf`. -/
inductive FieldError where
  /-- Format `"invalid value '%s'"`, with the item. -/
  | invalidValue (item : GoString)
  /-- Format `"value %d out of range [%d, %d]"`, with the value and the bounds. -/
  | outOfRange (val min max : Int)
  deriving DecidableEq, Repr

/-- The `%d` verb of `fmt`. -/
def fmtInt (v : Int) : GoString :=
  if v < 0 then '-' :: (Nat.toDigits 10 v.natAbs) else Nat.toDigits 10 v.natAbs

/-- The message of a `FieldError`, as `fmt.Errorf` renders it. -/
def FieldError.Error : FieldError → GoString
  | .invalidValue item => "invalid value '".toList ++ item ++ "'".toList
  | .outOfRange val min max =>
    "value ".toList ++ fmtInt val ++ " out of range [".toList ++ fmtInt min ++
      ", ".toList ++ fmtInt max ++ "]".toList

/-- A `map[int]bool` holding only `true`: the set of its keys. -/
abbrev Matcher := Finset Int

instance : DecidableEq (Except FieldError Matcher)
  | .ok x, .ok y => decidable_of_iff (x = y) ⟨congrArg Except.ok, Except.ok.inj⟩
  | .error x, .error y => decidable_of_iff (x = y) ⟨congrArg Except.error, Except.error.inj⟩
  | .ok _, .error _ => isFalse (fun e => nomatch e)
  | .error _, .ok _ => isFalse (fun e => nomatch e)

/-- Number of loop iterations after which a loop driven by one 64-bit counter
that steps by one has seen every counter value. -/
def loopFuel : Nat := 2 ^ 64 + 1

/-- The loop `for i := min; i <= max; i++ { parts[i] = true }`, entered with
counter `i`.  The increment wraps as Go's does; `none` when the loop has not
exited after `fuel` tests of its condition. -/
def wildcardLoop : Nat → Int → Int → Matcher → Option Matcher
  | 0, _, _, _ => none
  | fuel + 1, i, max, parts =>
    if i ≤ max then wildcardLoop fuel (wrapInt (i + 1)) max (insert i parts)
    else some parts

/-- The loop `for _, item := range strings.Split(field, ",")` of `parseField`,
over the items that remain, with the map built so far. -/
def parseItems : List GoString → Int → Int → Matcher → Except FieldError Matcher
  | [], _, _, parts => .ok parts
  | item :: rest, min, max, parts =>
    match Atoi item with
    | none => .error (.invalidValue item)
    | some val =>
      if val < min ∨ val > max then .error (.outOfRange val min max)
      else parseItems rest min max (insert val parts)

/-- Function `parseField`.  `none`: the call does not return; `some (.ok parts)`:
it returns `parts, nil`; `some (.error e)`: it returns `nil, e`. -/
def parseField (field : GoString) (min max : Int) : Option (Except FieldError Matcher) :=
  if field = ['*'] then
    (wildcardLoop loopFuel min max ∅).map Except.ok
  else
    some (parseItems (Split field ',') min max ∅)

/-! ## The `time` package

Instants are counted from January 1, year 1, 00:00:00 UTC, the zero `Time`, in
the proleptic Gregorian calendar without leap seconds.  The monotonic clock
reading a `Time` may carry plays no part in the program (`Truncate` strips it)
and is left out, and instants are not bounded.  The calendar methods read the wall clock of the location of the
`Time`; `Truncate`, in the words of its documentation, "operates on the time as
an absolute duration since the zero time; it does not operate on the presentation
form of the time". -/

/-- A `time.Location`: the offset east of UTC, in seconds, in effect at an
instant given in seconds since the zero time. -/
structure Location where
  offset : Int → Int

/-- Location `time.UTC`. -/
def UTC : Location := ⟨fun _ => 0⟩

/-- Function `time.FixedZone`: a location that always uses the given offset
(seconds east of UTC). -/
def FixedZone (offset : Int) : Location := ⟨fun _ => offset⟩

/-- A `time.Time`: an instant, in nanoseconds since the zero time, and the
location its calendar fields are taken in. -/
structure Time where
  ns : Int
  loc : Location

/-- Constant `time.Second`, in nanoseconds. -/
def Duration.Second : Int := 1000000000

/-- Constant `time.Minute`, in nanoseconds. -/
def Duration.Minute : Int := 60 * Duration.Second

/-- Seconds since the zero time (UTC), rounded down. -/
def Time.sec (t : Time) : Int := t.ns / Duration.Second

/-- Wall-clock seconds of `t` in its location: the seconds since the zero time
shifted by the location's offset at `t`. -/
def Time.abs (t : Time) : Int := t.sec + t.loc.offset t.sec

/-- Method `Time.Truncate`: `t` rounded down to a multiple of `d` since the zero
time; `t` itself when `d <= 0`.  It works on the instant, not on the wall clock
of the location. -/
def Time.Truncate (t : Time) (d : Int) : Time :=
  if d ≤ 0 then t else { t with ns := t.ns - t.ns % d }

/-- Method `Time.Minute`: the minute offset within the hour, in `[0, 59]`. -/
def Time.Minute (t : Time) : Int := t.abs % 3600 / 60

/-- Method `Time.Hour`: the hour within the day, in `[0, 23]`. -/
def Time.Hour (t : Time) : Int := t.abs % 86400 / 3600

/-- Method `Time.Weekday`, as a number: Sunday is 0, Saturday is 6.  January 1 of
year 1 is a Monday. -/
def Time.Weekday (t : Time) : Int := (t.abs + 86400) % 604800 / 86400

/-- Function `isLeap` of the `time` package. -/
def isLeap (year : Int) : Bool :=
  year % 4 == 0 && (year % 100 != 0 || year % 400 == 0)

/-- Table `daysBefore`: the number of days in a non-leap year before month
`m + 1` starts. -/
def daysBefore (m : Int) : Int :=
  [0, 31, 59, 90, 120, 151, 181, 212, 243, 273, 304, 334, 365].getD m.toNat 0

/-- Function `absDate`: year, month and day of the month of the wall-clock second
`abs`, by cutting off 400-year, 100-year, 4-year and 1-year cycles and then
estimating the month. -/
def absDate (abs : Int) : Int × Int × Int :=
  let d := abs / 86400
  let n400 := d / 146097
  let d1 := d - 146097 * n400
  let n100 := d1 / 36524 - d1 / 36524 / 4
  let d2 := d1 - 36524 * n100
  let n4 := d2 / 1461
  let d3 := d2 - 1461 * n4
  let n1 := d3 / 365 - d3 / 365 / 4
  let yday := d3 - 365 * n1
  let year := 400 * n400 + 100 * n100 + 4 * n4 + n1 + 1
  if isLeap year ∧ yday = 31 + 29 - 1 then (year, 2, 29)
  else
    let day := if isLeap year ∧ yday > 31 + 29 - 1 then yday - 1 else yday
    let month := day / 31
    let fin := daysBefore (month + 1)
    if day ≥ fin then (year, month + 2, day - fin + 1)
    else (year, month + 1, day - daysBefore month + 1)

/-- Method `Time.Year`. -/
def Time.Year (t : Time) : Int := (absDate t.abs).1

/-- Method `Time.Month`, as a number: January is 1, December is 12. -/
def Time.Month (t : Time) : Int := (absDate t.abs).2.1

/-- Method `Time.Day`: the day of the month. -/
def Time.Day (t : Time) : Int := (absDate t.abs).2.2

/-- Method `Time.Second`: the second offset within the minute, in `[0, 59]`. -/
def Time.Second (t : Time) : Int := t.abs % 60

/-- Method `Time.Nanosecond`: the nanosecond offset within the second. -/
def Time.Nanosecond (t : Time) : Int := t.ns % Duration.Second

/-! ## Jobs -/

/-- Struct `Job`. -/
structure Job where
  Schedule : GoString
  FullCommand : GoString
  minutes : Matcher := ∅
  hours : Matcher := ∅
  daysOfMonth : Matcher := ∅
  months : Matcher := ∅
  daysOfWeek : Matcher := ∅
  deriving DecidableEq

/-- Constant `minMinute`. -/
def minMinute : Int := 0

/-- Constant `maxMinute`. -/
def maxMinute : Int := 59

/-- Constant `minHour`. -/
def minHour : Int := 0

/-- Constant `maxHour`. -/
def maxHour : Int := 23

/-- Constant `minDom`. -/
def minDom : Int := 1

/-- Constant `maxDom`. -/
def maxDom : Int := 31

/-- Constant `minMonth`. -/
def minMonth : Int := 1

/-- Constant `maxMonth`. -/
def maxMonth : Int := 12

/-- Constant `minDow`: Sunday. -/
def minDow : Int := 0

/-- Constant `maxDow`: Saturday. -/
def maxDow : Int := 6

/-- The errors `parseSchedule` builds with `fmt.Errorf`. -/
inductive ScheduleError where
  /-- Format `"invalid schedule format: expected 5 fields, got %d for schedule '%s'"`,
  with the number of fields and the schedule. -/
  | fieldCount (n : Nat) (schedule : GoString)
  /-- Format `"invalid minute field: %w"`. -/
  | minute (err : FieldError)
  /-- Format `"invalid hour field: %w"`. -/
  | hour (err : FieldError)
  /-- Format `"invalid day-of-month field: %w"`. -/
  | dayOfMonth (err : FieldError)
  /-- Format `"invalid month field: %w"`. -/
  | month (err : FieldError)
  /-- Format `"invalid day-of-week field: %w"`. -/
  | dayOfWeek (err : FieldError)
  deriving DecidableEq, Repr

/-- The message of a `ScheduleError`, as `fmt.Errorf` renders it. -/
def ScheduleError.Error : ScheduleError → GoString
  | .fieldCount n schedule =>
    "invalid schedule format: expected 5 fields, got ".toList ++ fmtInt n ++
      " for schedule '".toList ++ schedule ++ "'".toList
  | .minute err => "invalid minute field: ".toList ++ err.Error
  | .hour err => "invalid hour field: ".toList ++ err.Error
  | .dayOfMonth err => "invalid day-of-month field: ".toList ++ err.Error
  | .month err => "invalid month field: ".toList ++ err.Error
  | .dayOfWeek err => "invalid day-of-week field: ".toList ++ err.Error

/-- The error a `ScheduleError` wraps with `%w`, if any (`errors.Unwrap`). -/
def ScheduleError.Unwrap : ScheduleError → Option FieldError
  | .fieldCount _ _ => none
  | .minute err => some err
  | .hour err => some err
  | .dayOfMonth err => some err
  | .month err => some err
  | .dayOfWeek err => some err

/-- Method `Job.parseSchedule`.  The receiver is passed in and the receiver after
the call is passed out, together with the returned error (`none` for `nil`).  A
failing `parseField` leaves the nil map in the field it was assigned to.  The
result is `none` when a call of `parseField` does not return. -/
def Job.parseSchedule (j : Job) : Option (Job × Option ScheduleError) :=
  match Fields j.Schedule with
  | [f0, f1, f2, f3, f4] =>
    (parseField f0 minMinute maxMinute).bind fun r0 =>
    match r0 with
    | .error err => some ({ j with minutes := ∅ }, some (.minute err))
    | .ok m0 =>
    let j := { j with minutes := m0 }
    (parseField f1 minHour maxHour).bind fun r1 =>
    match r1 with
    | .error err => some ({ j with hours := ∅ }, some (.hour err))
    | .ok m1 =>
    let j := { j with hours := m1 }
    (parseField f2 minDom maxDom).bind fun r2 =>
    match r2 with
    | .error err => some ({ j with daysOfMonth := ∅ }, some (.dayOfMonth err))
    | .ok m2 =>
    let j := { j with daysOfMonth := m2 }
    (parseField f3 minMonth maxMonth).bind fun r3 =>
    match r3 with
    | .error err => some ({ j with months := ∅ }, some (.month err))
    | .ok m3 =>
    let j := { j with months := m3 }
    (parseField f4 minDow maxDow).bind fun r4 =>
    match r4 with
    | .error err => some ({ j with daysOfWeek := ∅ }, some (.dayOfWeek err))
    | .ok m4 => some ({ j with daysOfWeek := m4 }, none)
  | fields => some (j, some (.fieldCount fields.length j.Schedule))

/-- Method `Job.ShouldRun`. -/
def Job.ShouldRun (j : Job) (t : Time) : Bool :=
  let t := t.Truncate Duration.Minute
  if ¬ t.Minute ∈ j.minutes then false
  else if ¬ t.Hour ∈ j.hours then false
  else if ¬ t.Day ∈ j.daysOfMonth then false
  else if ¬ t.Month ∈ j.months then false
  else if ¬ t.Weekday ∈ j.daysOfWeek then false
  else true

/-! ## `LoadConfig`

The file system is reduced to what `os.Open` and the reads of the scanner give:
the file behind the path, if it opens, the runes it delivers, and whether reading
ends with an error instead of end of file.  Log lines are not modelled. -/

/-- Struct `Config`. -/
structure Config where
  Jobs : List Job
  deriving DecidableEq

/-- An opened file: the data its reads deliver and whether they end with an
error other than `io.EOF`. -/
structure File where
  data : GoString
  readErr : Bool := false

/-- The errors `LoadConfig` builds with `fmt.Errorf`. -/
inductive LoadError where
  /-- Format `"could not open config file: %w"`. -/
  | couldNotOpen
  /-- Format `"error reading config file: %w"`. -/
  | errorReading
  deriving DecidableEq, Repr

instance : DecidableEq (Except LoadError Config)
  | .ok x, .ok y => decidable_of_iff (x = y) ⟨congrArg Except.ok, Except.ok.inj⟩
  | .error x, .error y => decidable_of_iff (x = y) ⟨congrArg Except.error, Except.error.inj⟩
  | .ok _, .error _ => isFalse (fun e => nomatch e)
  | .error _, .ok _ => isFalse (fun e => nomatch e)

/-- Constant `bufio.MaxScanTokenSize`: the size of the scanner's buffer, in
bytes. -/
def maxScanTokenSize : Nat := 64 * 1024

/-- Length of a string in bytes (UTF-8). -/
def byteLen (s : GoString) : Nat := (s.map fun c => c.utf8Size).sum

/-- The data cut at each `'\n'`: `cur` holds, reversed, the runes of the line
being read.  A last line without `'\n'` counts when it is not empty. -/
def rawLinesAux : GoString → GoString → List GoString
  | cur, [] => if cur = [] then [] else [cur.reverse]
  | cur, c :: cs =>
    if c = '\n' then cur.reverse :: rawLinesAux [] cs else rawLinesAux (c :: cur) cs

/-- The lines of the data as `bufio.ScanLines` cuts them, before the trailing
`'\r'` is dropped. -/
def rawLines (data : GoString) : List GoString := rawLinesAux [] data

/-- Function `dropCR` of `bufio`: the line without one trailing `'\r'`. -/
def dropCR (line : GoString) : GoString :=
  match line.reverse with
  | '\r' :: rest => rest.reverse
  | _ => line

/-- The body of the loop `for scanner.Scan()` of `LoadConfig` on the scanned text
`text`, with the jobs collected so far; the jobs after the iteration.  `none`
when `parseSchedule` does not return. -/
def loadLine (jobs : List Job) (text : GoString) : Option (List Job) :=
  let line := TrimSpace text
  if line = [] ∨ HasPrefix line ['#'] then some jobs
  else
    let fields := Fields line
    if fields.length < 6 then some jobs
    else
      let schedulePart := Join (fields.take 5) [' ']
      let commandPart := Join (fields.drop 5) [' ']
      let job : Job := { Schedule := schedulePart, FullCommand := commandPart }
      match job.parseSchedule with
      | none => none
      | some (_, some _) => some jobs
      | some (job, none) => some (jobs ++ [job])

/-- The loop `for scanner.Scan()` of `LoadConfig` over the raw lines that remain.
A line that does not fit the scanner's buffer ends the scan with
`bufio.ErrTooLong`, and `scanner.Err()` then reports it (`some (.error _)`). -/
def loadLoop : List GoString → List Job → Option (Except LoadError (List Job))
  | [], jobs => some (.ok jobs)
  | raw :: rest, jobs =>
    if maxScanTokenSize ≤ byteLen raw then some (.error .errorReading)
    else (loadLine jobs (dropCR raw)).bind fun jobs => loadLoop rest jobs

/-- Function `LoadConfig`, on the file behind the path (`none` when `os.Open`
fails).  `none`: the call does not return. -/
def LoadConfig (file : Option File) : Option (Except LoadError Config) :=
  match file with
  | none => some (.error .couldNotOpen)
  | some f =>
    (loadLoop (rawLines f.data) []).bind fun r =>
    match r with
    | .error err => some (.error err)
    | .ok jobs => if f.readErr then some (.error .errorReading) else some (.ok ⟨jobs⟩)

/-! ## `main` and `checkJobs`

The goroutine of `main` and `checkJobs` read the clock with `time.Now()`.  The
clock is an input here: the readings its successive calls give.  A `go` statement
is recorded as the job whose `Run` the new goroutine executes; what that
goroutine then does is not part of the function that started it. -/

/-- Largest `time.Duration`, in nanoseconds (an `int64`). -/
def Duration.max : Int := 2 ^ 63 - 1

/-- Smallest `time.Duration`, in nanoseconds (an `int64`). -/
def Duration.min : Int := -(2 ^ 63)

/-- Method `Time.Add`: the instant `d` nanoseconds after `t`, in the location of
`t`. -/
def Time.Add (t : Time) (d : Int) : Time := { t with ns := t.ns + d }

/-- Method `Time.Sub`: the duration `t - u`, or the largest (smallest) duration
when the difference is beyond it. -/
def Time.Sub (t u : Time) : Int :=
  if t.ns - u.ns > Duration.max then Duration.max
  else if t.ns - u.ns < Duration.min then Duration.min
  else t.ns - u.ns

/-- The value of `nextTick` in the goroutine of `main`:
`now.Truncate(time.Minute).Add(time.Minute)`. -/
def nextTick (now : Time) : Time := (now.Truncate Duration.Minute).Add Duration.Minute

/-- The argument of `time.Sleep` in the goroutine of `main`: `nextTick.Sub(now)`. -/
def firstSleep (now : Time) : Int := (nextTick now).Sub now

/-- The clock of the process: the readings the successive calls of `time.Now()`
give, and the number of calls made so far. -/
structure Clock where
  reading : Nat → Time
  calls : Nat

/-- Function `time.Now`: the next reading, and the clock after the call. -/
def Clock.Now (c : Clock) : Time × Clock :=
  (c.reading c.calls, { c with calls := c.calls + 1 })

/-- The loop `for _, job := range jobs` of `checkJobs` over the jobs that remain;
`launched` holds, in the order of the `go` statements executed so far, the jobs
whose `Run` was started. -/
def checkLoop (currentTime : Time) : List Job → List Job → List Job
  | [], launched => launched
  | job :: rest, launched =>
    let jobToRun := job
    if jobToRun.ShouldRun currentTime then checkLoop currentTime rest (launched ++ [jobToRun])
    else checkLoop currentTime rest launched

/-- Function `checkJobs`: the jobs whose `Run` it starts, in the order of the
`go` statements, and the clock after the call. -/
def checkJobs (clock : Clock) (jobs : List Job) : List Job × Clock :=
  let (currentTime, clock) := clock.Now
  (checkLoop currentTime jobs [], clock)

/-! ## Notions used to state the properties -/

/-- An item compiles in the domain `[min, max]`: `Atoi` accepts it, with a value
in the domain. -/
def itemOk (min max : Int) (item : GoString) : Prop :=
  ∃ v, Atoi item = some v ∧ min ≤ v ∧ v ≤ max

/-- A range expression `a-b`: two non-empty digit strings around a `'-'`. -/
def isRangeExpr (f : GoString) : Prop :=
  ∃ a b, a ≠ [] ∧ b ≠ [] ∧ (∀ c ∈ a, isDigit c = true) ∧ (∀ c ∈ b, isDigit c = true) ∧
    f = a ++ '-' :: b

/-- A step expression `*/n`, for any string `n`. -/
def isStepExpr (f : GoString) : Prop := ∃ n, f = '*' :: '/' :: n

/-- What `parseField` returns when its wildcard loop exits (`parseField_eq`). -/
def fieldResult (field : GoString) (min max : Int) : Except FieldError Matcher :=
  if field = ['*'] then .ok (Finset.Icc min max) else parseItems (Split field ',') min max ∅

/-- What `parseSchedule` makes of the results of its five calls of `parseField`,
in the order minute, hour, day of month, month, day of week
(`parseSchedule_five`). -/
def scheduleResult (j : Job) (r0 r1 r2 r3 r4 : Except FieldError Matcher) :
    Job × Option ScheduleError :=
  match r0, r1, r2, r3, r4 with
  | .error e, _, _, _, _ => ({ j with minutes := ∅ }, some (.minute e))
  | .ok m0, .error e, _, _, _ => ({ j with minutes := m0, hours := ∅ }, some (.hour e))
  | .ok m0, .ok m1, .error e, _, _ =>
    ({ j with minutes := m0, hours := m1, daysOfMonth := ∅ }, some (.dayOfMonth e))
  | .ok m0, .ok m1, .ok m2, .error e, _ =>
    ({ j with minutes := m0, hours := m1, daysOfMonth := m2, months := ∅ }, some (.month e))
  | .ok m0, .ok m1, .ok m2, .ok m3, .error e =>
    ({ j with minutes := m0, hours := m1, daysOfMonth := m2, months := m3, daysOfWeek := ∅ },
      some (.dayOfWeek e))
  | .ok m0, .ok m1, .ok m2, .ok m3, .ok m4 =>
    ({ j with minutes := m0, hours := m1, daysOfMonth := m2, months := m3, daysOfWeek := m4 },
      none)

/-- The job one scanned line of a config file adds to the collection, if any
(`loadLine_eq`). -/
def lineJob (text : GoString) : Option Job :=
  let line := TrimSpace text
  if line = [] ∨ HasPrefix line ['#'] then none
  else
    match Fields line with
    | f0 :: f1 :: f2 :: f3 :: f4 :: f5 :: rest =>
      match scheduleResult
          { Schedule := Join [f0, f1, f2, f3, f4] [' '], FullCommand := Join (f5 :: rest) [' '] }
          (fieldResult f0 0 59) (fieldResult f1 0 23) (fieldResult f2 1 31)
          (fieldResult f3 1 12) (fieldResult f4 0 6) with
      | (job, none) => some job
      | (_, some _) => none
    | _ => none

/-- The location of `t` keeps whole minutes around `t`: its offset from UTC at `t`
is a whole number of minutes, and is the same at the start of the minute of UTC
that holds `t`. -/
def wholeMinuteZone (t : Time) : Prop :=
  t.loc.offset t.sec % 60 = 0 ∧ t.loc.offset (t.sec - t.sec % 60) = t.loc.offset t.sec

/-! ## Inputs of the worked examples -/

/-- Monday, January 5, 1970, 09:00:10, on a wall clock 44 minutes 30 seconds
behind UTC (`time.FixedZone("MMT", -2670)`, the offset of Monrovia until 1972). -/
def monroviaMonday : Time :=
  ⟨(719166 * 86400 + 9 * 3600 + 10 + 2670) * 1000000000, FixedZone (-2670)⟩

/-- The job of the config line `0 9 * * 1 echo hello`, as `parseSchedule` builds
it. -/
def mondayJob : Job :=
  { Schedule := "0 9 * * 1".toList, FullCommand := "echo hello".toList,
    minutes := {0}, hours := {9}, daysOfMonth := Finset.Icc 1 31, months := Finset.Icc 1 12,
    daysOfWeek := {1} }

/-- Monday, January 1, 2024, 12:05:00, on a wall clock 19 minutes 32 seconds
ahead of UTC (`time.FixedZone("AMT", 1172)`, the offset of Amsterdam until
1937). -/
def noonFive : Time :=
  ⟨(738885 * 86400 + 12 * 3600 + 5 * 60 - 1172) * 1000000000, FixedZone 1172⟩

/-- The same day and wall clock as `noonFive`, at 12:05:59. -/
def noonFiveLate : Time :=
  ⟨(738885 * 86400 + 12 * 3600 + 5 * 60 + 59 - 1172) * 1000000000, FixedZone 1172⟩

/-- The job of the config line `5 * * * * cmd`, as `parseSchedule` builds it. -/
def minuteFiveJob : Job :=
  { Schedule := "5 * * * *".toList, FullCommand := "cmd".toList,
    minutes := {5}, hours := Finset.Icc 0 23, daysOfMonth := Finset.Icc 1 31,
    months := Finset.Icc 1 12, daysOfWeek := Finset.Icc 0 6 }

/-- Monday, January 1, 2024, 09:00:00, on a wall clock 19 minutes 32 seconds
ahead of UTC (`time.FixedZone("AMT", 1172)`). -/
def mondayNineAmsterdam : Time :=
  ⟨(738885 * 86400 + 9 * 3600 - 1172) * 1000000000, FixedZone 1172⟩

/-- Monday, January 1, 2024, 09:00:00 UTC. -/
def mondayNine : Time := ⟨(738885 * 86400 + 9 * 3600) * 1000000000, UTC⟩

/-- Monday, January 1, 2024, 09:01:00 UTC. -/
def mondayNineOne : Time := ⟨(738885 * 86400 + 9 * 3600 + 60) * 1000000000, UTC⟩

/-- Tuesday, January 2, 2024, 09:00:00 UTC. -/
def tuesdayNine : Time := ⟨(738886 * 86400 + 9 * 3600) * 1000000000, UTC⟩

/-- A config file of three lines: a comment, a job line of six fields, and a line
of only four fields. -/
def threeLineFile : File :=
  { data := "# jobs\n0 9 * * 1 echo hello\n1 2 3 4\n".toList }

/-- A config file of two lines: a job line, and a line of 65536 letters `x`. -/
def longLineFile : File :=
  { data := "0 9 * * 1 echo hello\n".toList ++ List.replicate 65536 'x' }

/-- A config file of one line of 65536 letters `x`. -/
def onlyLongLineFile : File :=
  { data := List.replicate 65536 'x' }

/-- A clock that reads Monday, January 1, 2024, 09:00:00 UTC at every call. -/
def mondayNineClock : Clock := { reading := fun _ => mondayNine, calls := 0 }

/-- The job of the config line `* * * * * cmd`, as `parseSchedule` builds it. -/
def everyMinuteJob : Job :=
  { Schedule := "* * * * *".toList, FullCommand := "cmd".toList,
    minutes := Finset.Icc 0 59, hours := Finset.Icc 0 23, daysOfMonth := Finset.Icc 1 31,
    months := Finset.Icc 1 12, daysOfWeek := Finset.Icc 0 6 }

/-! ## Machine integers and the wildcard loop -/

theorem wrapInt_of_isInt {v : Int} (h : isInt v) : wrapInt v = v := by
  unfold isInt minInt maxInt at h
  unfold wrapInt
  omega

theorem isInt_wrapInt (v : Int) : isInt (wrapInt v) := by
  unfold isInt minInt maxInt wrapInt
  omega

/-- With the upper bound at the largest `int` the loop condition never fails: the
loop does not exit, whatever the number of iterations allowed. -/
theorem wildcardLoop_maxInt (fuel : Nat) (i : Int) (parts : Matcher) (hi : isInt i) :
    wildcardLoop fuel i maxInt parts = none := by
  induction fuel generalizing i parts with
  | zero => rfl
  | succ n ih =>
    have h : i ≤ maxInt := hi.2
    simp only [wildcardLoop, h, if_true]
    exact ih _ _ (isInt_wrapInt _)

/-- Below the largest `int` the counter never wraps, and the loop exits after
adding every value from `i` to `max`. -/
theorem wildcardLoop_exits (fuel : Nat) (i max : Int) (parts : Matcher)
    (hi : minInt ≤ i) (hmax : max < maxInt) (hfuel : (max + 1 - i).toNat < fuel) :
    wildcardLoop fuel i max parts = some (parts ∪ Finset.Icc i max) := by
  induction fuel generalizing i parts with
  | zero => omega
  | succ n ih =>
    unfold wildcardLoop
    by_cases h : i ≤ max
    · have hw : wrapInt (i + 1) = i + 1 := by
        apply wrapInt_of_isInt
        unfold isInt; unfold minInt at hi ⊢; unfold maxInt at hmax ⊢; omega
      rw [if_pos h, hw, ih (i + 1) (insert i parts) (by omega) (by omega)]
      congr 1
      ext v
      simp only [Finset.mem_union, Finset.mem_insert, Finset.mem_Icc]
      have key : (v = i ∨ (i + 1 ≤ v ∧ v ≤ max)) ↔ (i ≤ v ∧ v ≤ max) := by omega
      rw [← key]; tauto
    · rw [if_neg h]
      congr 1
      ext v
      simp only [Finset.mem_union, Finset.mem_Icc]
      have key : ¬ (i ≤ v ∧ v ≤ max) := by omega
      tauto

theorem parseField_star (min max : Int) (hmin : minInt ≤ min) (hmax : max < maxInt) :
    parseField ['*'] min max = some (.ok (Finset.Icc min max)) := by
  have hfuel : (max + 1 - min).toNat < loopFuel := by
    unfold loopFuel; unfold minInt at hmin; unfold maxInt at hmax; omega
  simp [parseField, wildcardLoop_exits loopFuel min max ∅ hmin hmax hfuel]

theorem parseField_eq (field : GoString) (min max : Int) (hmin : minInt ≤ min)
    (hmax : max < maxInt) : parseField field min max = some (fieldResult field min max) := by
  unfold fieldResult
  by_cases h : field = ['*']
  · subst h
    simp [parseField_star min max hmin hmax]
  · simp [parseField, h]

/-! ## `strconv.Atoi` and the loop over the items -/

theorem Atoi_eq_some_iff (s : GoString) (v : Int) :
    Atoi s = some v ↔ intLiteral s = some v ∧ isInt v := by
  unfold Atoi
  cases h : intLiteral s with
  | none => simp
  | some w =>
    by_cases hw : isInt w
    · simp only [hw, if_true, Option.some.injEq]
      constructor
      · intro e; subst e; exact ⟨rfl, hw⟩
      · intro e; exact e.1
    · simp only [hw, if_false]
      constructor
      · intro e; cases e
      · rintro ⟨e, hv⟩; cases e; exact absurd hv hw

theorem itemOk_iff_intLiteral (min max : Int) (hmin : isInt min) (hmax : isInt max)
    (item : GoString) :
    itemOk min max item ↔ ∃ v, intLiteral item = some v ∧ min ≤ v ∧ v ≤ max := by
  unfold itemOk
  constructor
  · rintro ⟨v, hv, h1, h2⟩
    exact ⟨v, ((Atoi_eq_some_iff _ _).1 hv).1, h1, h2⟩
  · rintro ⟨v, hv, h1, h2⟩
    refine ⟨v, (Atoi_eq_some_iff _ _).2 ⟨hv, ?_⟩, h1, h2⟩
    exact ⟨le_trans hmin.1 h1, le_trans h2 hmax.2⟩

theorem parseItems_ok (items : List GoString) (min max : Int) (parts : Matcher)
    (h : ∀ x ∈ items, itemOk min max x) :
    ∃ S, parseItems items min max parts = .ok S ∧
      ∀ v, v ∈ S ↔ v ∈ parts ∨ ∃ x ∈ items, Atoi x = some v := by
  induction items generalizing parts with
  | nil => exact ⟨parts, rfl, by simp⟩
  | cons item rest ih =>
    obtain ⟨w, hw, h1, h2⟩ := h item (List.mem_cons_self _ _)
    obtain ⟨S, hS, hmem⟩ := ih (insert w parts) (fun x hx => h x (List.mem_cons_of_mem _ hx))
    refine ⟨S, ?_, ?_⟩
    · have hr : ¬ (w < min ∨ w > max) := by omega
      simp only [parseItems, hw, hr, if_false]
      exact hS
    · intro v
      rw [hmem v]
      simp only [Finset.mem_insert, List.mem_cons, exists_eq_or_imp, hw, Option.some.injEq]
      constructor
      · rintro ((h | h) | h)
        · exact Or.inr (Or.inl h.symm)
        · exact Or.inl h
        · exact Or.inr (Or.inr h)
      · rintro (h | h | h)
        · exact Or.inl (Or.inr h)
        · exact Or.inl (Or.inl h.symm)
        · exact Or.inr h

theorem parseItems_first_bad (pre : List GoString) (item : GoString) (post : List GoString)
    (min max : Int) (parts : Matcher) (h : ∀ x ∈ pre, itemOk min max x) :
    parseItems (pre ++ item :: post) min max parts =
      match Atoi item with
      | none => .error (.invalidValue item)
      | some val =>
        if val < min ∨ val > max then .error (.outOfRange val min max)
        else parseItems post min max (insert val (parts ∪ (pre.filterMap Atoi).toFinset)) := by
  induction pre generalizing parts with
  | nil =>
    simp only [List.nil_append, List.filterMap_nil, List.toFinset_nil, Finset.union_empty]
    cases hA : Atoi item <;> simp [parseItems, hA]
  | cons p pre ih =>
    obtain ⟨w, hw, h1, h2⟩ := h p (List.mem_cons_self _ _)
    have hr : ¬ (w < min ∨ w > max) := by omega
    rw [List.cons_append, parseItems]
    simp only [hw, hr, if_false]
    rw [ih (insert w parts) (fun x hx => h x (List.mem_cons_of_mem _ hx))]
    have e : insert w parts ∪ (pre.filterMap Atoi).toFinset =
        parts ∪ ((p :: pre).filterMap Atoi).toFinset := by
      ext v
      simp only [List.filterMap_cons, hw, List.toFinset_cons, Finset.mem_union, Finset.mem_insert]
      tauto
    rw [e]

theorem parseItems_error (items : List GoString) (min max : Int) (parts : Matcher)
    (e : FieldError) (h : parseItems items min max parts = .error e) :
    ∃ pre item post, items = pre ++ item :: post ∧ (∀ x ∈ pre, itemOk min max x) ∧
      ((Atoi item = none ∧ e = .invalidValue item) ∨
        ∃ v, Atoi item = some v ∧ (v < min ∨ v > max) ∧ e = .outOfRange v min max) := by
  induction items generalizing parts with
  | nil => simp [parseItems] at h
  | cons item rest ih =>
    rw [parseItems] at h
    cases ha : Atoi item with
    | none =>
      simp only [ha] at h
      refine ⟨[], item, rest, rfl, by simp, Or.inl ⟨ha, ?_⟩⟩
      cases h; rfl
    | some w =>
      simp only [ha] at h
      by_cases hr : w < min ∨ w > max
      · rw [if_pos hr] at h
        refine ⟨[], item, rest, rfl, by simp, Or.inr ⟨w, ha, hr, ?_⟩⟩
        cases h; rfl
      · rw [if_neg hr] at h
        obtain ⟨pre, it, post, he, hpre, hit⟩ := ih _ h
        refine ⟨item :: pre, it, post, by rw [he]; rfl, ?_, hit⟩
        intro x hx
        rcases List.mem_cons.1 hx with hx | hx
        · subst hx; exact ⟨w, ha, by omega, by omega⟩
        · exact hpre x hx

theorem parseItems_ok_all (items : List GoString) (min max : Int) (parts S : Matcher)
    (h : parseItems items min max parts = .ok S) : ∀ x ∈ items, itemOk min max x := by
  induction items generalizing parts with
  | nil => simp
  | cons item rest ih =>
    rw [parseItems] at h
    cases ha : Atoi item with
    | none => simp [ha] at h
    | some w =>
      simp only [ha] at h
      by_cases hr : w < min ∨ w > max
      · rw [if_pos hr] at h; cases h
      · rw [if_neg hr] at h
        intro x hx
        rcases List.mem_cons.1 hx with hx | hx
        · subst hx; exact ⟨w, ha, by omega, by omega⟩
        · exact ih _ h x hx

/-! ## `strings.Split` and `strings.Fields` -/

theorem splitAux_append_sep (sep : Char) (cur s1 s2 : GoString) :
    splitAux sep cur (s1 ++ sep :: s2) = splitAux sep cur s1 ++ splitAux sep [] s2 := by
  induction s1 generalizing cur with
  | nil => simp [splitAux]
  | cons c cs ih =>
    by_cases h : c = sep
    · simp [splitAux, h, ih]
    · simp [splitAux, h, ih]

theorem Split_append_sep (sep : Char) (s1 s2 : GoString) :
    Split (s1 ++ sep :: s2) sep = Split s1 sep ++ Split s2 sep :=
  splitAux_append_sep sep [] s1 s2

theorem splitAux_noSep (sep : Char) (cur s : GoString) (h : sep ∉ s) :
    splitAux sep cur s = [cur.reverse ++ s] := by
  induction s generalizing cur with
  | nil => simp [splitAux]
  | cons c cs ih =>
    have hc : c ≠ sep := fun e => h (by simp [e])
    have hcs : sep ∉ cs := fun e => h (List.mem_cons_of_mem _ e)
    simp [splitAux, hc, ih _ hcs]

theorem Split_noSep (sep : Char) (s : GoString) (h : sep ∉ s) : Split s sep = [s] := by
  simpa [Split] using splitAux_noSep sep [] s h

theorem splitAux_head (sep : Char) (cur s : GoString) :
    ∃ tl rest, splitAux sep cur s = (cur.reverse ++ tl) :: rest := by
  induction s generalizing cur with
  | nil => exact ⟨[], [], by simp [splitAux]⟩
  | cons c cs ih =>
    by_cases h : c = sep
    · exact ⟨[], splitAux sep [] cs, by simp [splitAux, h]⟩
    · obtain ⟨tl, rest, e⟩ := ih (c :: cur)
      exact ⟨c :: tl, rest, by simp [splitAux, h, e]⟩

theorem fieldsAux_space (cur a b : GoString) (c : Char) (hc : isSpace c = true) :
    fieldsAux cur (a ++ c :: b) = fieldsAux cur a ++ Fields b := by
  induction a generalizing cur with
  | nil =>
    by_cases h : cur = []
    · simp [fieldsAux, hc, h, Fields]
    · simp [fieldsAux, hc, h, Fields]
  | cons x xs ih =>
    by_cases hx : isSpace x = true
    · by_cases h : cur = []
      · simp [fieldsAux, hx, h, ih]
      · simp [fieldsAux, hx, h, ih]
    · simp [fieldsAux, hx, ih]

theorem Fields_space (a b : GoString) (c : Char) (hc : isSpace c = true) :
    Fields (a ++ c :: b) = Fields a ++ Fields b :=
  fieldsAux_space [] a b c hc

theorem fieldsAux_noSpace (cur s : GoString) (h : ∀ c ∈ s, isSpace c = false) :
    fieldsAux cur s = if cur.reverse ++ s = [] then [] else [cur.reverse ++ s] := by
  induction s generalizing cur with
  | nil => simp [fieldsAux]
  | cons c cs ih =>
    have hc : isSpace c = false := h c (List.mem_cons_self _ _)
    have hcs : ∀ c ∈ cs, isSpace c = false := fun x hx => h x (List.mem_cons_of_mem _ hx)
    simp [fieldsAux, hc, ih _ hcs]

theorem Fields_token (s : GoString) (hne : s ≠ []) (h : ∀ c ∈ s, isSpace c = false) :
    Fields s = [s] := by
  simp [Fields, fieldsAux_noSpace [] s h, hne]

theorem Fields_spaces (w : GoString) (h : ∀ c ∈ w, isSpace c = true) : Fields w = [] := by
  induction w with
  | nil => rfl
  | cons c cs ih =>
    have hc := h c (List.mem_cons_self _ _)
    have := Fields_space [] cs c hc
    simp only [List.nil_append] at this
    rw [this, ih (fun x hx => h x (List.mem_cons_of_mem _ hx))]
    rfl

theorem Fields_append_spaces (a w b : GoString) (hw : ∀ c ∈ w, isSpace c = true)
    (hne : w ≠ []) : Fields (a ++ w ++ b) = Fields a ++ Fields b := by
  cases w with
  | nil => exact absurd rfl hne
  | cons c cs =>
    have hc := hw c (List.mem_cons_self _ _)
    have hcs : ∀ x ∈ cs, isSpace x = true := fun x hx => hw x (List.mem_cons_of_mem _ hx)
    have e : a ++ c :: cs ++ b = a ++ c :: (cs ++ b) := by simp
    rw [e, Fields_space a _ c hc]
    congr 1
    clear e hw hne hc
    induction cs with
    | nil => rfl
    | cons d ds ih =>
      have hd := hcs d (List.mem_cons_self _ _)
      have := Fields_space [] (ds ++ b) d hd
      simp only [List.nil_append] at this
      rw [List.cons_append, this, ih (fun x hx => hcs x (List.mem_cons_of_mem _ hx))]
      rfl

theorem fieldsAux_mem (cur s : GoString) (hcur : ∀ c ∈ cur, isSpace c = false) :
    ∀ f ∈ fieldsAux cur s, f ≠ [] ∧ ∀ c ∈ f, isSpace c = false := by
  induction s generalizing cur with
  | nil =>
    intro f hf
    by_cases h : cur = []
    · simp [fieldsAux, h] at hf
    · simp only [fieldsAux, h, if_false, List.mem_singleton] at hf
      subst hf
      exact ⟨by simpa using h, fun c hc => hcur c (by simpa using hc)⟩
  | cons x xs ih =>
    intro f hf
    by_cases hx : isSpace x = true
    · by_cases h : cur = []
      · simp only [fieldsAux, hx, h, if_true] at hf
        exact ih [] (by simp) f hf
      · simp only [fieldsAux, hx, h, if_true, if_false, List.mem_cons] at hf
        rcases hf with hf | hf
        · subst hf
          exact ⟨by simpa using h, fun c hc => hcur c (by simpa using hc)⟩
        · exact ih [] (by simp) f hf
    · simp only [fieldsAux, hx] at hf
      refine ih (x :: cur) ?_ f hf
      intro c hc
      rcases List.mem_cons.1 hc with hc | hc
      · subst hc; simpa using hx
      · exact hcur c hc

theorem Fields_mem (s f : GoString) (hf : f ∈ Fields s) :
    f ≠ [] ∧ ∀ c ∈ f, isSpace c = false :=
  fieldsAux_mem [] s (by simp) f hf

theorem Fields_Join (fs : List GoString) (h : ∀ f ∈ fs, f ≠ [] ∧ ∀ c ∈ f, isSpace c = false) :
    Fields (Join fs [' ']) = fs := by
  induction fs with
  | nil => rfl
  | cons f rest ih =>
    have hf := h f (List.mem_cons_self _ _)
    have hrest : ∀ g ∈ rest, g ≠ [] ∧ ∀ c ∈ g, isSpace c = false :=
      fun g hg => h g (List.mem_cons_of_mem _ hg)
    cases rest with
    | nil => simpa [Join] using Fields_token f hf.1 hf.2
    | cons g gs =>
      have e : Join (f :: g :: gs) [' '] = f ++ ' ' :: Join (g :: gs) [' '] := by
        simp [Join]
      rw [e, Fields_space f _ ' ' (by decide), Fields_token f hf.1 hf.2, ih hrest]
      rfl

theorem Split_star_no_empty (pre post : List GoString) :
    Split ['*'] ',' ≠ pre ++ [] :: post := by
  have e : Split ['*'] ',' = [['*']] := by decide
  rw [e]
  intro h
  cases pre with
  | nil => simp at h
  | cons p ps =>
    simp only [List.cons_append, List.cons.injEq] at h
    have := h.2
    cases ps <;> simp at this

/-! ## Range and step expressions -/

theorem parseDigits_dash (a b : GoString) (n : Nat) (ha : ∀ c ∈ a, isDigit c = true) :
    parseDigits (a ++ '-' :: b) n = none := by
  induction a generalizing n with
  | nil => simp [parseDigits, isDigit]
  | cons c cs ih =>
    have hc := ha c (List.mem_cons_self _ _)
    simp only [List.cons_append, parseDigits, hc, if_true]
    exact ih _ (fun x hx => ha x (List.mem_cons_of_mem _ hx))

theorem isDigit_ne (c : Char) (h : isDigit c = true) : c ≠ ',' ∧ c ≠ '+' ∧ c ≠ '-' := by
  simp only [isDigit, Bool.and_eq_true, decide_eq_true_eq] at h
  refine ⟨?_, ?_, ?_⟩ <;> intro e <;> subst e <;> revert h <;> decide

theorem fieldResult_range (f : GoString) (min max : Int) (h : isRangeExpr f) :
    fieldResult f min max = .error (.invalidValue f) := by
  obtain ⟨a, b, ha, hb, hda, hdb, rfl⟩ := h
  have hcomma : ',' ∉ a ++ '-' :: b := by
    intro hm
    rcases List.mem_append.1 hm with hm | hm
    · exact (isDigit_ne _ (hda _ hm)).1 rfl
    · rcases List.mem_cons.1 hm with hm | hm
      · exact absurd hm (by decide)
      · exact (isDigit_ne _ (hdb _ hm)).1 rfl
  have hstar : a ++ '-' :: b ≠ ['*'] := by
    cases a with
    | nil => exact absurd rfl ha
    | cons c cs =>
      intro e
      have hc := hda c (List.mem_cons_self _ _)
      simp only [List.cons_append, List.cons.injEq] at e
      rw [e.1] at hc
      exact absurd hc (by decide)
  have hat : Atoi (a ++ '-' :: b) = none := by
    cases a with
    | nil => exact absurd rfl ha
    | cons c cs =>
      have hc := hda c (List.mem_cons_self _ _)
      have hne := isDigit_ne c hc
      have hpd := parseDigits_dash (c :: cs) b 0 hda
      simp only [List.cons_append] at hpd
      have hil : intLiteral (c :: (cs ++ '-' :: b)) = none := by
        unfold intLiteral
        split
        · rename_i ds e
          simp only [List.cons_append, List.cons.injEq] at e
          exact absurd e.1 hne.2.1
        · rename_i ds e
          simp only [List.cons_append, List.cons.injEq] at e
          exact absurd e.1 hne.2.2
        · simp [parseUint, hpd]
      simp [Atoi, hil]
  simp [fieldResult, hstar, Split_noSep ',' _ hcomma, parseItems, hat]

theorem fieldResult_step (n : GoString) (min max : Int) :
    ∃ tl, fieldResult ('*' :: '/' :: n) min max = .error (.invalidValue ('*' :: '/' :: tl)) := by
  obtain ⟨tl, rest, e⟩ := splitAux_head ',' ['/', '*'] n
  refine ⟨tl, ?_⟩
  have hs : Split ('*' :: '/' :: n) ',' = ('*' :: '/' :: tl) :: rest := by
    simp [Split, splitAux, e]
  have ha : Atoi ('*' :: '/' :: tl) = none := by
    simp [Atoi, intLiteral, parseUint, parseDigits, isDigit]
  simp [fieldResult, hs, parseItems, ha]

/-! ## `parseSchedule` -/

theorem parseSchedule_five (j : Job) (f0 f1 f2 f3 f4 : GoString)
    (h : Fields j.Schedule = [f0, f1, f2, f3, f4]) :
    j.parseSchedule = some (scheduleResult j (fieldResult f0 0 59) (fieldResult f1 0 23)
      (fieldResult f2 1 31) (fieldResult f3 1 12) (fieldResult f4 0 6)) := by
  have e0 := parseField_eq f0 0 59 (by decide) (by decide)
  have e1 := parseField_eq f1 0 23 (by decide) (by decide)
  have e2 := parseField_eq f2 1 31 (by decide) (by decide)
  have e3 := parseField_eq f3 1 12 (by decide) (by decide)
  have e4 := parseField_eq f4 0 6 (by decide) (by decide)
  simp only [Job.parseSchedule, h, minMinute, maxMinute, minHour, maxHour, minDom, maxDom,
    minMonth, maxMonth, minDow, maxDow, e0, e1, e2, e3, e4, Option.some_bind]
  cases fieldResult f0 0 59 <;> cases fieldResult f1 0 23 <;> cases fieldResult f2 1 31 <;>
    cases fieldResult f3 1 12 <;> cases fieldResult f4 0 6 <;> rfl

theorem parseSchedule_count (j : Job) (h : (Fields j.Schedule).length ≠ 5) :
    j.parseSchedule = some (j, some (.fieldCount (Fields j.Schedule).length j.Schedule)) := by
  unfold Job.parseSchedule
  rcases hF : Fields j.Schedule with _ | ⟨a, _ | ⟨b, _ | ⟨c, _ | ⟨d, _ | ⟨e, _ | ⟨f, g⟩⟩⟩⟩⟩⟩
  all_goals first
    | rfl
    | (rw [hF] at h; exact absurd rfl h)

theorem scheduleResult_error (j : Job) (r0 r1 r2 r3 r4 : Except FieldError Matcher)
    (h : (∃ e, r0 = .error e) ∨ (∃ e, r1 = .error e) ∨ (∃ e, r2 = .error e) ∨
      (∃ e, r3 = .error e) ∨ (∃ e, r4 = .error e)) :
    ∃ j' err, scheduleResult j r0 r1 r2 r3 r4 = (j', some err) := by
  cases r0 <;> cases r1 <;> cases r2 <;> cases r3 <;> cases r4 <;>
    simp [scheduleResult] at h ⊢

theorem scheduleResult_not_fieldCount (j : Job) (r0 r1 r2 r3 r4 : Except FieldError Matcher)
    (n : Nat) (s : GoString) :
    (scheduleResult j r0 r1 r2 r3 r4).2 ≠ some (.fieldCount n s) := by
  cases r0 <;> cases r1 <;> cases r2 <;> cases r3 <;> cases r4 <;> simp [scheduleResult]

theorem scheduleResult_congr (j1 j2 : Job) (r0 r1 r2 r3 r4 : Except FieldError Matcher) :
    (scheduleResult j1 r0 r1 r2 r3 r4).2 = (scheduleResult j2 r0 r1 r2 r3 r4).2 ∧
    ((scheduleResult j1 r0 r1 r2 r3 r4).2 = none →
      (scheduleResult j1 r0 r1 r2 r3 r4).1.minutes = (scheduleResult j2 r0 r1 r2 r3 r4).1.minutes ∧
      (scheduleResult j1 r0 r1 r2 r3 r4).1.hours = (scheduleResult j2 r0 r1 r2 r3 r4).1.hours ∧
      (scheduleResult j1 r0 r1 r2 r3 r4).1.daysOfMonth =
        (scheduleResult j2 r0 r1 r2 r3 r4).1.daysOfMonth ∧
      (scheduleResult j1 r0 r1 r2 r3 r4).1.months = (scheduleResult j2 r0 r1 r2 r3 r4).1.months ∧
      (scheduleResult j1 r0 r1 r2 r3 r4).1.daysOfWeek =
        (scheduleResult j2 r0 r1 r2 r3 r4).1.daysOfWeek) := by
  cases r0 <;> cases r1 <;> cases r2 <;> cases r3 <;> cases r4 <;> simp [scheduleResult]

theorem length_five {α : Type} (l : List α) (h : l.length = 5) :
    ∃ a b c d e, l = [a, b, c, d, e] := by
  rcases l with _ | ⟨a, _ | ⟨b, _ | ⟨c, _ | ⟨d, _ | ⟨e, _ | ⟨f, g⟩⟩⟩⟩⟩⟩ <;>
    simp at h
  exact ⟨a, b, c, d, e, rfl⟩

/-! ## `LoadConfig` -/

theorem loadLine_eq (jobs : List Job) (text : GoString) :
    loadLine jobs text = some (jobs ++ (lineJob text).toList) := by
  unfold loadLine lineJob
  by_cases hc : TrimSpace text = [] ∨ HasPrefix (TrimSpace text) ['#'] = true
  · simp [hc]
  · simp only [hc, if_false]
    have hmem := Fields_mem (TrimSpace text)
    rcases hF : Fields (TrimSpace text) with
      _ | ⟨f0, _ | ⟨f1, _ | ⟨f2, _ | ⟨f3, _ | ⟨f4, _ | ⟨f5, rest⟩⟩⟩⟩⟩⟩
    all_goals try simp
    rw [hF] at hmem
    have hj : Fields (Join [f0, f1, f2, f3, f4] [' ']) = [f0, f1, f2, f3, f4] := by
      apply Fields_Join
      intro f hf
      apply hmem
      simp only [List.mem_cons] at hf ⊢
      tauto
    have hp := parseSchedule_five
      { Schedule := Join [f0, f1, f2, f3, f4] [' '], FullCommand := Join (f5 :: rest) [' '] }
      f0 f1 f2 f3 f4 hj
    rw [hp]
    rcases scheduleResult
      { Schedule := Join [f0, f1, f2, f3, f4] [' '], FullCommand := Join (f5 :: rest) [' '] }
      (fieldResult f0 0 59) (fieldResult f1 0 23) (fieldResult f2 1 31)
      (fieldResult f3 1 12) (fieldResult f4 0 6) with ⟨job, _ | err⟩
    · simp
    · simp

theorem loadLoop_eq (lines : List GoString) (jobs : List Job) :
    loadLoop lines jobs =
      if lines.any (fun raw => decide (maxScanTokenSize ≤ byteLen raw)) then
        some (.error .errorReading)
      else some (.ok (jobs ++ (lines.map dropCR).filterMap lineJob)) := by
  induction lines generalizing jobs with
  | nil => simp [loadLoop]
  | cons raw rest ih =>
    rw [loadLoop]
    by_cases h : maxScanTokenSize ≤ byteLen raw
    · simp [h]
    · simp only [h, if_false, loadLine_eq, Option.some_bind, ih, List.any_cons, decide_False,
        Bool.false_or, List.map_cons, List.filterMap_cons]
      split
      · rfl
      · cases lineJob (dropCR raw) <;> simp

/-! ## `Truncate` and the calendar fields -/

theorem Truncate_Minute_sec (t : Time) :
    (t.Truncate Duration.Minute).sec = t.sec - t.sec % 60 := by
  unfold Time.Truncate Time.sec Duration.Minute Duration.Second
  simp only [show ¬ ((60 : Int) * 1000000000 ≤ 0) by decide, if_false]
  omega

theorem Truncate_Minute_abs (t : Time) (h : wholeMinuteZone t) :
    (t.Truncate Duration.Minute).abs = t.abs - t.abs % 60 := by
  have hs := Truncate_Minute_sec t
  have hl : (t.Truncate Duration.Minute).loc = t.loc := by
    unfold Time.Truncate; split <;> rfl
  unfold Time.abs
  rw [hs, hl, h.2]
  have := h.1
  omega

theorem Truncate_Minute_fields (t : Time) (h : wholeMinuteZone t) :
    (t.Truncate Duration.Minute).Minute = t.Minute ∧
    (t.Truncate Duration.Minute).Hour = t.Hour ∧
    (t.Truncate Duration.Minute).Day = t.Day ∧
    (t.Truncate Duration.Minute).Month = t.Month ∧
    (t.Truncate Duration.Minute).Weekday = t.Weekday ∧
    (t.Truncate Duration.Minute).Year = t.Year := by
  have ha := Truncate_Minute_abs t h
  have hd : (t.Truncate Duration.Minute).abs / 86400 = t.abs / 86400 := by rw [ha]; omega
  have hdate : absDate (t.Truncate Duration.Minute).abs = absDate t.abs := by
    unfold absDate; rw [hd]
  refine ⟨?_, ?_, ?_, ?_, ?_, ?_⟩
  · unfold Time.Minute; rw [ha]; omega
  · unfold Time.Hour; rw [ha]; omega
  · unfold Time.Day; rw [hdate]
  · unfold Time.Month; rw [hdate]
  · unfold Time.Weekday; rw [ha]; omega
  · unfold Time.Year; rw [hdate]

theorem ShouldRun_iff_truncated (j : Job) (t : Time) :
    j.ShouldRun t = true ↔
      (t.Truncate Duration.Minute).Minute ∈ j.minutes ∧
      (t.Truncate Duration.Minute).Hour ∈ j.hours ∧
      (t.Truncate Duration.Minute).Day ∈ j.daysOfMonth ∧
      (t.Truncate Duration.Minute).Month ∈ j.months ∧
      (t.Truncate Duration.Minute).Weekday ∈ j.daysOfWeek := by
  unfold Job.ShouldRun
  by_cases h0 : (t.Truncate Duration.Minute).Minute ∈ j.minutes <;>
  by_cases h1 : (t.Truncate Duration.Minute).Hour ∈ j.hours <;>
  by_cases h2 : (t.Truncate Duration.Minute).Day ∈ j.daysOfMonth <;>
  by_cases h3 : (t.Truncate Duration.Minute).Month ∈ j.months <;>
  by_cases h4 : (t.Truncate Duration.Minute).Weekday ∈ j.daysOfWeek <;>
  simp [h0, h1, h2, h3, h4]

theorem ShouldRun_iff_of_wholeMinuteZone (j : Job) (t : Time) (h : wholeMinuteZone t) :
    j.ShouldRun t = true ↔
      t.Minute ∈ j.minutes ∧ t.Hour ∈ j.hours ∧ t.Day ∈ j.daysOfMonth ∧
      t.Month ∈ j.months ∧ t.Weekday ∈ j.daysOfWeek := by
  obtain ⟨e0, e1, e2, e3, e4, _⟩ := Truncate_Minute_fields t h
  rw [ShouldRun_iff_truncated, e0, e1, e2, e3, e4]

theorem Truncate_Minute_idem (t : Time) :
    (t.Truncate Duration.Minute).Truncate Duration.Minute = t.Truncate Duration.Minute := by
  unfold Time.Truncate Duration.Minute Duration.Second
  simp only [show ¬ ((60 : Int) * 1000000000 ≤ 0) by decide, if_false]
  congr 1
  omega

theorem ShouldRun_Truncate (j : Job) (t : Time) :
    j.ShouldRun (t.Truncate Duration.Minute) = j.ShouldRun t := by
  unfold Job.ShouldRun
  simp only [Truncate_Minute_idem]

theorem ShouldRun_same_minute (j : Job) (t1 t2 : Time) (h1 : wholeMinuteZone t1)
    (h2 : wholeMinuteZone t2) (h : t1.abs / 60 = t2.abs / 60) :
    j.ShouldRun t1 = j.ShouldRun t2 := by
  have a1 := Truncate_Minute_abs t1 h1
  have a2 := Truncate_Minute_abs t2 h2
  have e : (t1.Truncate Duration.Minute).abs = (t2.Truncate Duration.Minute).abs := by
    rw [a1, a2]; omega
  unfold Job.ShouldRun Time.Minute Time.Hour Time.Day Time.Month Time.Weekday
  simp only [e]

/-! ## `parseField`: helper facts -/

/-- With the items before it compiling, the first item that does not compile
decides what `parseField` returns. -/
theorem parseField_first_bad (field : GoString) (min max : Int) (pre : List GoString)
    (item : GoString) (post : List GoString) (hne : field ≠ ['*'])
    (hsplit : Split field ',' = pre ++ item :: post)
    (hpre : ∀ x ∈ pre, itemOk min max x) (hbad : ¬ itemOk min max item) :
    (Atoi item = none → parseField field min max = some (.error (.invalidValue item))) ∧
    (∀ v, Atoi item = some v →
      parseField field min max = some (.error (.outOfRange v min max))) := by
  have hp : parseField field min max = some (parseItems (pre ++ item :: post) min max ∅) := by
    simp [parseField, hne, hsplit]
  rw [hp, parseItems_first_bad pre item post min max ∅ hpre]
  cases ha : Atoi item with
  | none => simp
  | some w =>
    have hr : w < min ∨ w > max := by
      by_contra hr
      exact hbad ⟨w, ha, by omega, by omega⟩
    simp [hr]

/-- The wildcard never makes `parseField` return an error. -/
theorem parseField_star_no_error (min max : Int) (err : FieldError) :
    parseField ['*'] min max ≠ some (.error err) := by
  intro h
  simp only [parseField, if_true] at h
  cases hw : wildcardLoop loopFuel min max ∅ <;> simp [hw] at h

/-- An error of `parseField` comes from a first item that does not compile. -/
theorem parseField_error_decomp (field : GoString) (min max : Int) (err : FieldError)
    (h : parseField field min max = some (.error err)) :
    ∃ pre item post, Split field ',' = pre ++ item :: post ∧
      (∀ x ∈ pre, itemOk min max x) ∧ ¬ itemOk min max item ∧
      ((Atoi item = none ∧ err = .invalidValue item) ∨
        ∃ v, Atoi item = some v ∧ (v < min ∨ v > max) ∧ err = .outOfRange v min max) := by
  by_cases hstar : field = ['*']
  · subst hstar
    exact absurd h (parseField_star_no_error min max err)
  · simp only [parseField, hstar, if_false, Option.some.injEq] at h
    obtain ⟨pre, item, post, hs, hpre, hk⟩ := parseItems_error _ min max ∅ err h
    refine ⟨pre, item, post, hs, hpre, ?_, hk⟩
    rintro ⟨v, hv, h1, h2⟩
    rcases hk with ⟨hn, _⟩ | ⟨w, hw, hr, _⟩
    · rw [hn] at hv; cases hv
    · rw [hw] at hv; cases hv; omega

/-- The job of `0 9 * * 1 echo hello` is `mondayJob`. -/
theorem mondayJob_parses :
    Job.parseSchedule { Schedule := "0 9 * * 1".toList, FullCommand := "echo hello".toList } =
      some (mondayJob, none) := by
  rw [parseSchedule_five _ ['0'] ['9'] ['*'] ['*'] ['1'] (by decide)]
  have e0 : fieldResult ['0'] 0 59 = .ok {0} := by decide
  have e1 : fieldResult ['9'] 0 23 = .ok {9} := by decide
  have e2 : fieldResult ['*'] 1 31 = .ok (Finset.Icc 1 31) := by decide
  have e3 : fieldResult ['*'] 1 12 = .ok (Finset.Icc 1 12) := by decide
  have e4 : fieldResult ['1'] 0 6 = .ok {1} := by decide
  rw [e0, e1, e2, e3, e4]
  rfl

/-- The job of `5 * * * * cmd` is `minuteFiveJob`. -/
theorem minuteFiveJob_parses :
    Job.parseSchedule { Schedule := "5 * * * *".toList, FullCommand := "cmd".toList } =
      some (minuteFiveJob, none) := by
  rw [parseSchedule_five _ ['5'] ['*'] ['*'] ['*'] ['*'] (by decide)]
  have e0 : fieldResult ['5'] 0 59 = .ok {5} := by decide
  have e1 : fieldResult ['*'] 0 23 = .ok (Finset.Icc 0 23) := by decide
  have e2 : fieldResult ['*'] 1 31 = .ok (Finset.Icc 1 31) := by decide
  have e3 : fieldResult ['*'] 1 12 = .ok (Finset.Icc 1 12) := by decide
  have e4 : fieldResult ['*'] 0 6 = .ok (Finset.Icc 0 6) := by decide
  rw [e0, e1, e2, e3, e4]
  rfl

/-! ## The claims -/

/-- Claim C1, evaluated at an input where the code departs from it.  The job of
`0 9 * * 1 echo hello` and Monday, January 5, 1970, 09:00:10 on a wall clock 44
minutes 30 seconds behind UTC: minute 0, hour 9, day 5, month 1 and weekday 1
(Monday) of the timestamp are each in the job's set, yet `ShouldRun` answers
false.  It tests the fields of the truncated instant, which on that wall clock
reads 08:59:30. -/
theorem ShouldRun_false_though_all_fields_match :
    Job.parseSchedule { Schedule := "0 9 * * 1".toList, FullCommand := "echo hello".toList } =
      some (mondayJob, none) ∧
    (monroviaMonday.Year = 1970 ∧ monroviaMonday.Month = 1 ∧ monroviaMonday.Day = 5 ∧
      monroviaMonday.Hour = 9 ∧ monroviaMonday.Minute = 0 ∧ monroviaMonday.Second = 10 ∧
      monroviaMonday.Weekday = 1) ∧
    (monroviaMonday.Minute ∈ mondayJob.minutes ∧ monroviaMonday.Hour ∈ mondayJob.hours ∧
      monroviaMonday.Day ∈ mondayJob.daysOfMonth ∧ monroviaMonday.Month ∈ mondayJob.months ∧
      monroviaMonday.Weekday ∈ mondayJob.daysOfWeek) ∧
    mondayJob.ShouldRun monroviaMonday = false ∧
    ((monroviaMonday.Truncate Duration.Minute).Hour = 8 ∧
      (monroviaMonday.Truncate Duration.Minute).Minute = 59 ∧
      (monroviaMonday.Truncate Duration.Minute).Second = 30) :=
  ⟨mondayJob_parses, by decide, by decide, by decide, by decide⟩

/-- Claim C2.  For a field other than `*` whose comma-separated items are all
base-10 integer literals with a value in `[min, max]`, `parseField` returns a set
and no error; a value is in the set exactly when it is the value of some item;
and any other such field with the same items, repeated or reordered, gives the
same set. -/
theorem parseField_list_exact (field : GoString) (min max : Int) (hmin : isInt min)
    (hmax : isInt max) (hne : field ≠ ['*'])
    (hitems : ∀ item ∈ Split field ',', ∃ v, intLiteral item = some v ∧ min ≤ v ∧ v ≤ max) :
    ∃ parts, parseField field min max = some (.ok parts) ∧
      (∀ v, v ∈ parts ↔ ∃ item ∈ Split field ',', intLiteral item = some v) ∧
      (∀ other, other ≠ ['*'] →
        (∀ item, item ∈ Split other ',' ↔ item ∈ Split field ',') →
        parseField other min max = some (.ok parts)) := by
  have hok : ∀ x ∈ Split field ',', itemOk min max x := fun x hx =>
    (itemOk_iff_intLiteral min max hmin hmax x).2 (hitems x hx)
  have conv : ∀ v, (∃ x ∈ Split field ',', Atoi x = some v) ↔
      ∃ x ∈ Split field ',', intLiteral x = some v := by
    intro v
    constructor
    · rintro ⟨x, hx, hv⟩
      exact ⟨x, hx, ((Atoi_eq_some_iff _ _).1 hv).1⟩
    · rintro ⟨x, hx, hv⟩
      obtain ⟨w, hw, h1, h2⟩ := hitems x hx
      rw [hv] at hw
      cases hw
      exact ⟨x, hx, (Atoi_eq_some_iff _ _).2 ⟨hv, le_trans hmin.1 h1, le_trans h2 hmax.2⟩⟩
  obtain ⟨S, hS, hmem⟩ := parseItems_ok (Split field ',') min max ∅ hok
  refine ⟨S, by simp [parseField, hne, hS], ?_, ?_⟩
  · intro v
    rw [hmem v, ← conv v]
    simp
  · intro other hother hsame
    obtain ⟨S', hS', hmem'⟩ := parseItems_ok (Split other ',') min max ∅
      (fun x hx => hok x ((hsame x).1 hx))
    have e : S' = S := by
      ext v
      rw [hmem v, hmem' v]
      simp only [Finset.not_mem_empty, false_or]
      constructor
      · rintro ⟨x, hx, hv⟩; exact ⟨x, (hsame x).1 hx, hv⟩
      · rintro ⟨x, hx, hv⟩; exact ⟨x, (hsame x).2 hx, hv⟩
    simp [parseField, hother, hS', e]

/-- Claim C2 at `"5,5,10"` in the minute domain: the fields `"5,5,10"`, `"10,5"`
and `"5,10"` all give the set of 5 and 10. -/
theorem parseField_list_exact_witness :
    (isInt 0 ∧ isInt 59 ∧ "5,5,10".toList ≠ ['*'] ∧
      ∀ item ∈ Split "5,5,10".toList ',',
        ∃ v, intLiteral item = some v ∧ (0 : Int) ≤ v ∧ v ≤ 59) ∧
    parseField "5,5,10".toList 0 59 = some (.ok {5, 10}) ∧
    parseField "10,5".toList 0 59 = some (.ok {5, 10}) ∧
    parseField "5,10".toList 0 59 = some (.ok {5, 10}) := by
  have e2 : Split "5,5,10".toList ',' = [['5'], ['5'], ['1', '0']] := by decide
  have hitems : ∀ item ∈ Split "5,5,10".toList ',',
      ∃ v, intLiteral item = some v ∧ (0 : Int) ≤ v ∧ v ≤ 59 := by
    intro item h
    have h' : item = ['5'] ∨ item = ['1', '0'] := by
      rw [e2] at h
      simpa using h
    rcases h' with rfl | rfl
    · exact ⟨5, by decide, by decide, by decide⟩
    · exact ⟨10, by decide, by decide, by decide⟩
  obtain ⟨parts, hp, _, hsame⟩ :=
    parseField_list_exact "5,5,10".toList 0 59 (by decide) (by decide) (by decide) hitems
  have e : parts = {5, 10} := by
    have : parseField "5,5,10".toList 0 59 = some (.ok {5, 10}) := by
      have e : ({5, 10} : Finset Int) = insert 10 (insert 5 (insert 5 ∅)) := by decide
      rw [e]
      rfl
    rw [this] at hp
    cases hp; rfl
  subst e
  refine ⟨⟨by decide, by decide, by decide, hitems⟩, hp, ?_, ?_⟩
  · refine hsame "10,5".toList (by decide) ?_
    have e1 : Split "10,5".toList ',' = [['1', '0'], ['5']] := by decide
    intro item
    rw [e1, e2]
    simp only [List.mem_cons, List.mem_singleton, List.not_mem_nil, or_false]
    tauto
  · refine hsame "5,10".toList (by decide) ?_
    have e1 : Split "5,10".toList ',' = [['5'], ['1', '0']] := by decide
    intro item
    rw [e1, e2]
    simp only [List.mem_cons, List.mem_singleton, List.not_mem_nil, or_false]
    tauto

/-- Claim C3 fails when `max` is the largest `int`: the condition `i <= max` of
the wildcard loop then holds for every counter value, the increment wraps, and
`parseField("*", 0, max)` does not return, whatever number of iterations is
allowed. -/
theorem parseField_wildcard_maxInt_never_returns :
    isInt 0 ∧ isInt maxInt ∧ (∀ fuel, wildcardLoop fuel 0 maxInt ∅ = none) ∧
    parseField ['*'] 0 maxInt = none ∧
    ¬ ∃ parts, parseField ['*'] 0 maxInt = some (.ok parts) := by
  have h : ∀ fuel, wildcardLoop fuel 0 maxInt ∅ = none :=
    fun fuel => wildcardLoop_maxInt fuel 0 ∅ (by decide)
  have hp : parseField ['*'] 0 maxInt = none := by simp [parseField, h]
  refine ⟨by decide, by decide, h, hp, ?_⟩
  rintro ⟨parts, e⟩
  rw [hp] at e
  cases e

/-- Claim C3, amended.  For every pair of `int`s `min` and `max` with `max` not
the largest `int`, `parseField("*", min, max)` returns a set and no error, and
the set holds exactly the integers `v` with `min <= v <= max`. -/
theorem parseField_wildcard_exact (min max : Int) (hmin : isInt min) (hmax : isInt max)
    (hne : max ≠ maxInt) :
    ∃ parts, parseField ['*'] min max = some (.ok parts) ∧
      ∀ v, v ∈ parts ↔ min ≤ v ∧ v ≤ max := by
  have hlt : max < maxInt := lt_of_le_of_ne hmax.2 hne
  exact ⟨Finset.Icc min max, parseField_star min max hmin.1 hlt, fun v => Finset.mem_Icc⟩

/-- Claim C3, amended, at the minute domain `[0, 59]`. -/
theorem parseField_wildcard_exact_witness :
    (isInt 0 ∧ isInt 59 ∧ (59 : Int) ≠ maxInt) ∧
    ∃ parts, parseField ['*'] 0 59 = some (.ok parts) ∧ ∀ v, v ∈ parts ↔ 0 ≤ v ∧ v ≤ 59 :=
  ⟨⟨by decide, by decide, by decide⟩,
    parseField_wildcard_exact 0 59 (by decide) (by decide) (by decide)⟩

/-- Claim C4 fails for the field `*`, in two ways.  When `max` is the largest
`int` the field is exactly `*`, but `parseField("*", 1, max)` does not succeed,
since it does not return.  And in the minute domain the field `*` has an item,
`*` itself, that is no integer literal, yet `parseField("*", 0, 59)` succeeds. -/
theorem parseField_ok_iff_fails_for_wildcard :
    ¬ ((∃ parts, parseField ['*'] 1 maxInt = some (.ok parts)) ↔
      (['*'] = ['*'] ∨
        ∀ item ∈ Split ['*'] ',', ∃ v, intLiteral item = some v ∧ 1 ≤ v ∧ v ≤ maxInt)) ∧
    ((∃ item ∈ Split ['*'] ',', ¬ ∃ v, intLiteral item = some v ∧ (0 : Int) ≤ v ∧ v ≤ 59) ∧
      ∃ parts, parseField ['*'] 0 59 = some (.ok parts)) := by
  have h : ∀ fuel, wildcardLoop fuel 1 maxInt ∅ = none :=
    fun fuel => wildcardLoop_maxInt fuel 1 ∅ (by decide)
  have hp : parseField ['*'] 1 maxInt = none := by simp [parseField, h]
  refine ⟨?_, ⟨['*'], by decide, ?_⟩, _, parseField_star 0 59 (by decide) (by decide)⟩
  · intro hiff
    obtain ⟨parts, e⟩ := hiff.2 (Or.inl rfl)
    rw [hp] at e
    cases e
  · rintro ⟨v, hv, _⟩
    have hn : intLiteral ['*'] = none := by decide
    rw [hn] at hv
    cases hv

/-- Claim C4, amended.  For `int`s `min` and `max`, `parseField(field, min, max)`
succeeds exactly when `field` is `*` and `max` is not the largest `int`, or every
comma-separated item of `field` is a base-10 integer literal with a value in
`[min, max]`; and a field other than `*` with an item that is not such a literal
makes `parseField` return an error. -/
theorem parseField_ok_iff (field : GoString) (min max : Int) (hmin : isInt min)
    (hmax : isInt max) :
    ((∃ parts, parseField field min max = some (.ok parts)) ↔
      ((field = ['*'] ∧ max ≠ maxInt) ∨
        ∀ item ∈ Split field ',', ∃ v, intLiteral item = some v ∧ min ≤ v ∧ v ≤ max)) ∧
    (field ≠ ['*'] →
      (∃ item ∈ Split field ',', ¬ ∃ v, intLiteral item = some v ∧ min ≤ v ∧ v ≤ max) →
      ∃ err, parseField field min max = some (.error err)) := by
  have key : (∃ parts, parseItems (Split field ',') min max ∅ = .ok parts) ↔
      ∀ item ∈ Split field ',', ∃ v, intLiteral item = some v ∧ min ≤ v ∧ v ≤ max := by
    constructor
    · rintro ⟨parts, hp⟩ item hitem
      exact (itemOk_iff_intLiteral min max hmin hmax item).1
        (parseItems_ok_all _ min max ∅ parts hp item hitem)
    · intro hall
      obtain ⟨S, hS, _⟩ := parseItems_ok (Split field ',') min max ∅
        (fun x hx => (itemOk_iff_intLiteral min max hmin hmax x).2 (hall x hx))
      exact ⟨S, hS⟩
  constructor
  · by_cases hstar : field = ['*']
    · subst hstar
      have hnot : ¬ ∀ item ∈ Split ['*'] ',',
          ∃ v, intLiteral item = some v ∧ min ≤ v ∧ v ≤ max := by
        intro hall
        obtain ⟨v, hv, _⟩ := hall ['*'] (by decide)
        have hn : intLiteral ['*'] = none := by decide
        rw [hn] at hv
        cases hv
      by_cases hm : max = maxInt
      · subst hm
        have hp : parseField ['*'] min maxInt = none := by
          simp [parseField, wildcardLoop_maxInt loopFuel min ∅ hmin]
        rw [hp]
        simp [hnot]
      · have hlt : max < maxInt := lt_of_le_of_ne hmax.2 hm
        rw [parseField_star min max hmin.1 hlt]
        simp [hm]
    · have hpf : parseField field min max = some (parseItems (Split field ',') min max ∅) := by
        simp [parseField, hstar]
      rw [hpf]
      simp only [hstar, false_and, false_or, Option.some.injEq]
      exact key
  · intro hstar hbad
    have hpf : parseField field min max = some (parseItems (Split field ',') min max ∅) := by
      simp [parseField, hstar]
    rw [hpf]
    simp only [Option.some.injEq]
    cases hres : parseItems (Split field ',') min max ∅ with
    | error err => exact ⟨err, rfl⟩
    | ok parts =>
      exfalso
      obtain ⟨item, hitem, hno⟩ := hbad
      exact hno (key.1 ⟨parts, hres⟩ item hitem)

/-- Claim C4, amended, at the field `"5,60"` in the minute domain. -/
theorem parseField_ok_iff_witness :
    (isInt 0 ∧ isInt 59) ∧
    (((∃ parts, parseField "5,60".toList 0 59 = some (.ok parts)) ↔
      (("5,60".toList = ['*'] ∧ (59 : Int) ≠ maxInt) ∨ ∀ item ∈ Split "5,60".toList ',',
        ∃ v, intLiteral item = some v ∧ (0 : Int) ≤ v ∧ v ≤ 59)) ∧
    ("5,60".toList ≠ ['*'] →
      (∃ item ∈ Split "5,60".toList ',',
        ¬ ∃ v, intLiteral item = some v ∧ (0 : Int) ≤ v ∧ v ≤ 59) →
      ∃ err, parseField "5,60".toList 0 59 = some (.error err))) :=
  ⟨⟨by decide, by decide⟩, parseField_ok_iff "5,60".toList 0 59 (by decide) (by decide)⟩

/-- Claim C5.  When `parseField` fails there is a leftmost item that does not
compile, the items before it all compiling, and every such item decides the
error: the invalid-value error with the item's text when `Atoi` rejects the item,
the out-of-range error with the value and the two bounds when `Atoi` gives a
value outside `[min, max]`.  In terms of the text of the item: the invalid-value
error when it is not an integer literal, the out-of-range error when it is one
whose value is an `int`, and the invalid-value error again when it is one whose
value does not fit an `int`, which `Atoi` rejects. -/
theorem parseField_error_kind (field : GoString) (min max : Int) (err : FieldError)
    (h : parseField field min max = some (.error err)) :
    (∃ pre item post, Split field ',' = pre ++ item :: post ∧
      (∀ x ∈ pre, itemOk min max x) ∧ ¬ itemOk min max item ∧
      ((Atoi item = none ∧ err = .invalidValue item) ∨
        ∃ v, Atoi item = some v ∧ (v < min ∨ v > max) ∧ err = .outOfRange v min max)) ∧
    (∀ pre item post, Split field ',' = pre ++ item :: post →
      (∀ x ∈ pre, itemOk min max x) → ¬ itemOk min max item →
      (Atoi item = none → err = .invalidValue item) ∧
      (∀ v, Atoi item = some v → err = .outOfRange v min max) ∧
      (intLiteral item = none → err = .invalidValue item) ∧
      (∀ v, intLiteral item = some v → isInt v → err = .outOfRange v min max) ∧
      (∀ v, intLiteral item = some v → ¬ isInt v → err = .invalidValue item)) := by
  refine ⟨parseField_error_decomp field min max err h, ?_⟩
  intro pre item post hsplit hpre hbad
  have hne : field ≠ ['*'] := by
    intro e
    subst e
    exact parseField_star_no_error min max err h
  obtain ⟨h1, h2⟩ := parseField_first_bad field min max pre item post hne hsplit hpre hbad
  have k1 : Atoi item = none → err = .invalidValue item := by
    intro ha
    rw [h1 ha] at h
    cases h; rfl
  have k2 : ∀ v, Atoi item = some v → err = .outOfRange v min max := by
    intro v ha
    rw [h2 v ha] at h
    cases h; rfl
  refine ⟨k1, k2, ?_, ?_, ?_⟩
  · intro hl
    exact k1 (by simp [Atoi, hl])
  · intro v hl hv
    exact k2 v ((Atoi_eq_some_iff item v).2 ⟨hl, hv⟩)
  · intro v hl hv
    exact k1 (by simp [Atoi, hl, hv])

/-- Claim C5 at `"5,10,99"` in the minute domain: the error is the out-of-range
error citing 99, with the message `value 99 out of range [0, 59]`. -/
theorem parseField_error_kind_witness :
    parseField "5,10,99".toList 0 59 = some (.error (.outOfRange 99 0 59)) ∧
    (FieldError.outOfRange 99 0 59).Error = "value 99 out of range [0, 59]".toList ∧
    ∃ pre item post, Split "5,10,99".toList ',' = pre ++ item :: post ∧
      (∀ x ∈ pre, itemOk 0 59 x) ∧ ¬ itemOk 0 59 item ∧
      ((Atoi item = none ∧ FieldError.outOfRange 99 0 59 = .invalidValue item) ∨
        ∃ v, Atoi item = some v ∧ (v < 0 ∨ v > 59) ∧
          FieldError.outOfRange 99 0 59 = .outOfRange v 0 59) :=
  ⟨by decide, by decide,
    (parseField_error_kind "5,10,99".toList 0 59 (.outOfRange 99 0 59) (by decide)).1⟩

/-- Claim C6.  A field written as a range `a-b` or as a step `*/n` makes
`parseField` return the invalid-value error, for every domain; a scanned line
with such a field among its first five leaves the collected jobs as they were; a
raw line with such a field among its first five can be taken out of the file
without changing the result of the loop of `LoadConfig`; and the file of the one
line `*/15 * * * * cmd` loads with no job. -/
theorem parseField_rejects_range_and_step (f : GoString) (min max : Int)
    (h : isRangeExpr f ∨ isStepExpr f) :
    (∃ item, parseField f min max = some (.error (.invalidValue item))) ∧
    (∀ jobs text, f ∈ (Fields (TrimSpace text)).take 5 → loadLine jobs text = some jobs) ∧
    (∀ before raw after jobs, byteLen raw < maxScanTokenSize →
      f ∈ (Fields (TrimSpace (dropCR raw))).take 5 →
      loadLoop (before ++ raw :: after) jobs = loadLoop (before ++ after) jobs) ∧
    LoadConfig (some { data := "*/15 * * * * cmd".toList }) = some (.ok ⟨[]⟩) := by
  have hres : ∀ lo hi, ∃ item, fieldResult f lo hi = .error (.invalidValue item) := by
    intro lo hi
    rcases h with h | ⟨n, rfl⟩
    · exact ⟨f, fieldResult_range f lo hi h⟩
    · obtain ⟨tl, e⟩ := fieldResult_step n lo hi
      exact ⟨_, e⟩
  have hstar : f ≠ ['*'] := by
    rcases h with ⟨a, b, ha, _, hda, _, rfl⟩ | ⟨n, rfl⟩
    · cases a with
      | nil => exact absurd rfl ha
      | cons c cs =>
        intro e
        have hc := hda c (List.mem_cons_self _ _)
        simp only [List.cons_append, List.cons.injEq] at e
        rw [e.1] at hc
        exact absurd hc (by decide)
    · intro e; cases e
  have hline : ∀ text, f ∈ (Fields (TrimSpace text)).take 5 → lineJob text = none := by
    intro text hf
    unfold lineJob
    by_cases hc : TrimSpace text = [] ∨ HasPrefix (TrimSpace text) ['#'] = true
    · simp [hc]
    · simp only [hc, if_false]
      rcases hF : Fields (TrimSpace text) with
        _ | ⟨f0, _ | ⟨f1, _ | ⟨f2, _ | ⟨f3, _ | ⟨f4, _ | ⟨f5, rest⟩⟩⟩⟩⟩⟩
      all_goals try rfl
      rw [hF] at hf
      have hmem : f = f0 ∨ f = f1 ∨ f = f2 ∨ f = f3 ∨ f = f4 := by
        simpa [List.take] using hf
      obtain ⟨j', err, he⟩ := scheduleResult_error
        { Schedule := Join [f0, f1, f2, f3, f4] [' '], FullCommand := Join (f5 :: rest) [' '] }
        (fieldResult f0 0 59) (fieldResult f1 0 23) (fieldResult f2 1 31)
        (fieldResult f3 1 12) (fieldResult f4 0 6) (by
          rcases hmem with e | e | e | e | e <;> subst e
          · obtain ⟨i, hi⟩ := hres 0 59; exact Or.inl ⟨_, hi⟩
          · obtain ⟨i, hi⟩ := hres 0 23; exact Or.inr (Or.inl ⟨_, hi⟩)
          · obtain ⟨i, hi⟩ := hres 1 31; exact Or.inr (Or.inr (Or.inl ⟨_, hi⟩))
          · obtain ⟨i, hi⟩ := hres 1 12; exact Or.inr (Or.inr (Or.inr (Or.inl ⟨_, hi⟩)))
          · obtain ⟨i, hi⟩ := hres 0 6; exact Or.inr (Or.inr (Or.inr (Or.inr ⟨_, hi⟩))))
      simp only [he]
  refine ⟨?_, ?_, ?_, by decide⟩
  · obtain ⟨item, hi⟩ := hres min max
    refine ⟨item, ?_⟩
    simp only [fieldResult, hstar, if_false] at hi
    simp [parseField, hstar, hi]
  · intro jobs text hf
    rw [loadLine_eq, hline text hf]
    simp
  · intro before raw after jobs hlen hf
    rw [loadLoop_eq, loadLoop_eq]
    have hnl : ¬ (maxScanTokenSize ≤ byteLen raw) := by omega
    simp [List.any_append, hnl, List.filterMap_append, hline _ hf]

/-- Claim C6 at the step `*/15` and at the range `1-5`, in the minute domain, and
at the scanned line `*/15 * * * * cmd`. -/
theorem parseField_rejects_range_and_step_witness :
    (isRangeExpr "*/15".toList ∨ isStepExpr "*/15".toList) ∧
    (isRangeExpr "1-5".toList ∨ isStepExpr "1-5".toList) ∧
    (∃ item, parseField "*/15".toList 0 59 = some (.error (.invalidValue item))) ∧
    (∃ item, parseField "1-5".toList 0 59 = some (.error (.invalidValue item))) ∧
    loadLine [] "*/15 * * * * cmd".toList = some [] ∧
    LoadConfig (some { data := "*/15 * * * * cmd".toList }) = some (.ok ⟨[]⟩) :=
  have h : isRangeExpr "*/15".toList ∨ isStepExpr "*/15".toList := Or.inr ⟨"15".toList, rfl⟩
  have h2 : isRangeExpr "1-5".toList ∨ isStepExpr "1-5".toList :=
    Or.inl ⟨['1'], ['5'], by decide, by decide, by decide, by decide, rfl⟩
  ⟨h, h2, (parseField_rejects_range_and_step "*/15".toList 0 59 h).1,
    (parseField_rejects_range_and_step "1-5".toList 0 59 h2).1,
    (parseField_rejects_range_and_step "*/15".toList 0 59 h).2.1 [] _ (by decide),
    (parseField_rejects_range_and_step "*/15".toList 0 59 h).2.2.2⟩

/-- Claim C7.  When the items of a field are `pre`, then an empty item, then
`post`, and the items of `pre` all compile, `parseField` returns the
invalid-value error for the empty item, and so no set.  A trailing comma, a
leading comma, a doubled comma and the empty field all put an empty item into the
list of items. -/
theorem parseField_empty_item (field : GoString) (min max : Int) (pre post : List GoString)
    (hsplit : Split field ',' = pre ++ [] :: post) (hpre : ∀ x ∈ pre, itemOk min max x) :
    parseField field min max = some (.error (.invalidValue [])) ∧
    (∀ parts, parseField field min max ≠ some (.ok parts)) ∧
    (FieldError.invalidValue []).Error = "invalid value ''".toList ∧
    (∀ s : GoString, Split (s ++ [',']) ',' = Split s ',' ++ [] :: []) ∧
    (∀ s : GoString, Split (',' :: s) ',' = [] ++ [] :: Split s ',') ∧
    (∀ s1 s2 : GoString,
      Split (s1 ++ ',' :: ',' :: s2) ',' = Split s1 ',' ++ [] :: Split s2 ',') ∧
    Split [] ',' = [] ++ [] :: [] := by
  have hne : field ≠ ['*'] := by
    intro e
    subst e
    exact Split_star_no_empty pre post hsplit
  have hp : parseField field min max = some (.error (.invalidValue [])) := by
    have ha : Atoi [] = none := by decide
    simp [parseField, hne, hsplit, parseItems_first_bad pre [] post min max ∅ hpre, ha]
  have hnil : Split [] ',' = [[]] := by decide
  have hlead : ∀ s : GoString, Split (',' :: s) ',' = [] :: Split s ',' := by
    intro s
    have := Split_append_sep ',' [] s
    simp only [List.nil_append] at this
    rw [this, hnil]
    rfl
  refine ⟨hp, ?_, by decide, ?_, ?_, ?_, by decide⟩
  · intro parts h
    rw [hp] at h
    cases h
  · intro s
    rw [Split_append_sep, hnil]
  · intro s
    rw [hlead s]
    rfl
  · intro s1 s2
    rw [Split_append_sep, hlead s2]

/-- Claim C7 at `"5,"` in the minute domain, beside `"5"`, `",5"`, `"5,,6"` and
the empty field. -/
theorem parseField_empty_item_witness :
    (Split "5,".toList ',' = ["5".toList] ++ [] :: [] ∧ ∀ x ∈ ["5".toList], itemOk 0 59 x) ∧
    parseField "5,".toList 0 59 = some (.error (.invalidValue [])) ∧
    parseField "5".toList 0 59 = some (.ok {5}) ∧
    parseField ",5".toList 0 59 = some (.error (.invalidValue [])) ∧
    parseField "5,,6".toList 0 59 = some (.error (.invalidValue [])) ∧
    parseField "".toList 0 59 = some (.error (.invalidValue [])) := by
  have hpre : ∀ x ∈ ["5".toList], itemOk 0 59 x := by
    intro x hx
    simp only [List.mem_singleton] at hx
    subst hx
    exact ⟨5, by decide, by decide, by decide⟩
  exact ⟨⟨by decide, hpre⟩,
    (parseField_empty_item "5,".toList 0 59 _ [] (by decide) hpre).1, by decide,
    by decide, by decide, by decide⟩

/-- Claim C8.  With `n` the number of fields `strings.Fields` cuts the schedule
into: when `n` is not 5, `parseSchedule` returns the field-count error holding
`n` (and the schedule), and leaves the job as it was; when `n` is 5, the error,
if any, is not the field-count error, and every job whose schedule is cut into
the same five fields gets the same error and, on success, the same five sets.
`Fields` skips any non-empty run of white space as one separator, between fields
and at both ends; a string of white space only has no field. -/
theorem parseSchedule_field_count (j : Job) (n : Nat)
    (hn : (Fields j.Schedule).length = n) :
    (n ≠ 5 → j.parseSchedule = some (j, some (.fieldCount n j.Schedule))) ∧
    (n = 5 → ∃ j' err, j.parseSchedule = some (j', err) ∧
      (∀ m s, err ≠ some (.fieldCount m s)) ∧
      ∀ k : Job, Fields k.Schedule = Fields j.Schedule →
        ∃ k', k.parseSchedule = some (k', err) ∧
          (err = none → k'.minutes = j'.minutes ∧ k'.hours = j'.hours ∧
            k'.daysOfMonth = j'.daysOfMonth ∧ k'.months = j'.months ∧
            k'.daysOfWeek = j'.daysOfWeek)) ∧
    (∀ a w b : GoString, w ≠ [] → (∀ c ∈ w, isSpace c = true) →
      Fields (a ++ w ++ b) = Fields a ++ Fields b) ∧
    (∀ w : GoString, (∀ c ∈ w, isSpace c = true) → Fields w = []) ∧
    (∀ m s, (ScheduleError.fieldCount m s).Error =
      "invalid schedule format: expected 5 fields, got ".toList ++ fmtInt m ++
        " for schedule '".toList ++ s ++ "'".toList) := by
  refine ⟨?_, ?_, ?_, ?_, ?_⟩
  · intro h
    subst hn
    exact parseSchedule_count j h
  · intro h
    subst h
    obtain ⟨f0, f1, f2, f3, f4, hF⟩ := length_five _ hn
    refine ⟨(scheduleResult j (fieldResult f0 0 59) (fieldResult f1 0 23)
        (fieldResult f2 1 31) (fieldResult f3 1 12) (fieldResult f4 0 6)).1,
      (scheduleResult j (fieldResult f0 0 59) (fieldResult f1 0 23)
        (fieldResult f2 1 31) (fieldResult f3 1 12) (fieldResult f4 0 6)).2,
      parseSchedule_five j f0 f1 f2 f3 f4 hF,
      fun m s => scheduleResult_not_fieldCount _ _ _ _ _ _ m s, ?_⟩
    intro k hk
    have hc := scheduleResult_congr k j (fieldResult f0 0 59) (fieldResult f1 0 23)
      (fieldResult f2 1 31) (fieldResult f3 1 12) (fieldResult f4 0 6)
    refine ⟨(scheduleResult k (fieldResult f0 0 59) (fieldResult f1 0 23)
        (fieldResult f2 1 31) (fieldResult f3 1 12) (fieldResult f4 0 6)).1, ?_, ?_⟩
    · rw [parseSchedule_five k f0 f1 f2 f3 f4 (hk.trans hF), ← hc.1]
    · intro he
      exact hc.2 (hc.1.trans he)
  · intro a w b hne hw
    exact Fields_append_spaces a w b hw hne
  · exact Fields_spaces
  · intro m s; rfl

/-- Claim C8 at the four-field schedule `0 9 * *`, and at the five-field schedule
`0 9 * * 1` beside the same fields under other white space. -/
theorem parseSchedule_field_count_witness :
    ((Fields "0 9 * *".toList).length = 4 ∧ (Fields "0 9 * * 1".toList).length = 5 ∧
      Fields " 0  9 *\t* 1 ".toList = Fields "0 9 * * 1".toList) ∧
    Job.parseSchedule { Schedule := "0 9 * *".toList, FullCommand := [] } =
      some ({ Schedule := "0 9 * *".toList, FullCommand := [] },
        some (.fieldCount 4 "0 9 * *".toList)) ∧
    (ScheduleError.fieldCount 4 "0 9 * *".toList).Error =
      "invalid schedule format: expected 5 fields, got 4 for schedule '0 9 * *'".toList ∧
    ∃ j' k' err,
      Job.parseSchedule { Schedule := "0 9 * * 1".toList, FullCommand := [] } =
        some (j', err) ∧
      Job.parseSchedule { Schedule := " 0  9 *\t* 1 ".toList, FullCommand := [] } =
        some (k', err) := by
  have h4 : (Fields "0 9 * *".toList).length = 4 := by decide
  have h5 : (Fields "0 9 * * 1".toList).length = 5 := by decide
  have hsame : Fields " 0  9 *\t* 1 ".toList = Fields "0 9 * * 1".toList := by decide
  refine ⟨⟨h4, h5, hsame⟩, ?_, by decide, ?_⟩
  · exact (parseSchedule_field_count { Schedule := "0 9 * *".toList, FullCommand := [] }
      4 h4).1 (by decide)
  · obtain ⟨j', err, hj, _, hk⟩ :=
      (parseSchedule_field_count { Schedule := "0 9 * * 1".toList, FullCommand := [] }
        5 h5).2.1 rfl
    obtain ⟨k', hk', _⟩ := hk { Schedule := " 0  9 *\t* 1 ".toList, FullCommand := [] } hsame
    exact ⟨j', k', err, hj, hk'⟩

/-- Claim C9.  For a schedule of the five fields `f0 .. f4`, each of the five
calls `parseField(f0, 0, 59)`, `parseField(f1, 0, 23)`, `parseField(f2, 1, 31)`,
`parseField(f3, 1, 12)`, `parseField(f4, 0, 6)` returns, and `parseSchedule`
succeeds exactly when all five succeed, its sets then being the five results.
Otherwise its error is the error of the first failing call in that order, wrapped
as the minute, hour, day-of-month, month or day-of-week error, whatever the later
fields are. -/
theorem parseSchedule_first_failure (j : Job) (f0 f1 f2 f3 f4 : GoString)
    (h : Fields j.Schedule = [f0, f1, f2, f3, f4]) :
    ∃ r0 r1 r2 r3 r4 j' err,
      parseField f0 0 59 = some r0 ∧ parseField f1 0 23 = some r1 ∧
      parseField f2 1 31 = some r2 ∧ parseField f3 1 12 = some r3 ∧
      parseField f4 0 6 = some r4 ∧
      j.parseSchedule = some (j', err) ∧
      (err = none ↔ (∃ m, r0 = .ok m) ∧ (∃ m, r1 = .ok m) ∧ (∃ m, r2 = .ok m) ∧
        (∃ m, r3 = .ok m) ∧ (∃ m, r4 = .ok m)) ∧
      (∀ e, r0 = .error e → err = some (.minute e)) ∧
      (∀ e, (∃ m, r0 = .ok m) → r1 = .error e → err = some (.hour e)) ∧
      (∀ e, (∃ m, r0 = .ok m) → (∃ m, r1 = .ok m) → r2 = .error e →
        err = some (.dayOfMonth e)) ∧
      (∀ e, (∃ m, r0 = .ok m) → (∃ m, r1 = .ok m) → (∃ m, r2 = .ok m) → r3 = .error e →
        err = some (.month e)) ∧
      (∀ e, (∃ m, r0 = .ok m) → (∃ m, r1 = .ok m) → (∃ m, r2 = .ok m) → (∃ m, r3 = .ok m) →
        r4 = .error e → err = some (.dayOfWeek e)) ∧
      (err = none → r0 = .ok j'.minutes ∧ r1 = .ok j'.hours ∧ r2 = .ok j'.daysOfMonth ∧
        r3 = .ok j'.months ∧ r4 = .ok j'.daysOfWeek) ∧
      (∀ e : FieldError,
        (ScheduleError.minute e).Error = "invalid minute field: ".toList ++ e.Error ∧
        (ScheduleError.hour e).Error = "invalid hour field: ".toList ++ e.Error ∧
        (ScheduleError.dayOfMonth e).Error =
          "invalid day-of-month field: ".toList ++ e.Error ∧
        (ScheduleError.month e).Error = "invalid month field: ".toList ++ e.Error ∧
        (ScheduleError.dayOfWeek e).Error =
          "invalid day-of-week field: ".toList ++ e.Error) := by
  refine ⟨fieldResult f0 0 59, fieldResult f1 0 23, fieldResult f2 1 31, fieldResult f3 1 12,
    fieldResult f4 0 6,
    (scheduleResult j (fieldResult f0 0 59) (fieldResult f1 0 23)
      (fieldResult f2 1 31) (fieldResult f3 1 12) (fieldResult f4 0 6)).1,
    (scheduleResult j (fieldResult f0 0 59) (fieldResult f1 0 23)
      (fieldResult f2 1 31) (fieldResult f3 1 12) (fieldResult f4 0 6)).2,
    parseField_eq f0 0 59 (by decide) (by decide), parseField_eq f1 0 23 (by decide) (by decide),
    parseField_eq f2 1 31 (by decide) (by decide), parseField_eq f3 1 12 (by decide) (by decide),
    parseField_eq f4 0 6 (by decide) (by decide), parseSchedule_five j f0 f1 f2 f3 f4 h, ?_⟩
  cases fieldResult f0 0 59 <;> cases fieldResult f1 0 23 <;> cases fieldResult f2 1 31 <;>
    cases fieldResult f3 1 12 <;> cases fieldResult f4 0 6 <;>
    simp [scheduleResult, ScheduleError.Error]

/-- Claim C9 at the schedule `60 24 * * *`: the error is the minute error, not
the hour error. -/
theorem parseSchedule_first_failure_witness :
    Fields "60 24 * * *".toList = [['6', '0'], ['2', '4'], ['*'], ['*'], ['*']] ∧
    ∃ j', Job.parseSchedule { Schedule := "60 24 * * *".toList, FullCommand := [] } =
      some (j', some (.minute (.outOfRange 60 0 59))) ∧
    (ScheduleError.minute (.outOfRange 60 0 59)).Error =
      "invalid minute field: value 60 out of range [0, 59]".toList := by
  have hF : Fields "60 24 * * *".toList = [['6', '0'], ['2', '4'], ['*'], ['*'], ['*']] := by
    decide
  obtain ⟨r0, r1, r2, r3, r4, j', err, h0, _, _, _, _, hp, _, hmin, _⟩ :=
    parseSchedule_first_failure { Schedule := "60 24 * * *".toList, FullCommand := [] }
      _ _ _ _ _ hF
  have e0 : parseField ['6', '0'] 0 59 = some (.error (.outOfRange 60 0 59)) := by decide
  rw [e0] at h0
  cases h0
  rw [hmin _ rfl] at hp
  exact ⟨hF, j', hp, by decide⟩

/-- Claim C10, evaluated at an input where the code departs from it.  The job of
`5 * * * * cmd` and Monday, January 1, 2024, on a wall clock 19 minutes 32
seconds ahead of UTC: 12:05:00 and 12:05:59 agree on year, month, day, hour and
minute, yet `ShouldRun` answers false at the first and true at the second.  The
truncation cuts at the minutes of UTC, which on that wall clock start at second
32. -/
theorem ShouldRun_differs_within_wall_clock_minute :
    Job.parseSchedule { Schedule := "5 * * * *".toList, FullCommand := "cmd".toList } =
      some (minuteFiveJob, none) ∧
    (noonFive.Year = 2024 ∧ noonFive.Month = 1 ∧ noonFive.Day = 1 ∧ noonFive.Hour = 12 ∧
      noonFive.Minute = 5 ∧ noonFive.Second = 0) ∧
    (noonFiveLate.Year = 2024 ∧ noonFiveLate.Month = 1 ∧ noonFiveLate.Day = 1 ∧
      noonFiveLate.Hour = 12 ∧ noonFiveLate.Minute = 5 ∧ noonFiveLate.Second = 59) ∧
    minuteFiveJob.ShouldRun noonFive = false ∧
    minuteFiveJob.ShouldRun noonFiveLate = true ∧
    ((noonFive.Truncate Duration.Minute).Minute = 4 ∧
      (noonFive.Truncate Duration.Minute).Second = 32 ∧
      (noonFiveLate.Truncate Duration.Minute).Minute = 5 ∧
      (noonFiveLate.Truncate Duration.Minute).Second = 32) :=
  ⟨minuteFiveJob_parses, by decide, by decide, by decide, by decide, by decide⟩

/-! ## The calendar: ranges of the fields -/

theorem daysBefore_vals :
    daysBefore 0 = 0 ∧ daysBefore 1 = 31 ∧ daysBefore 2 = 59 ∧ daysBefore 3 = 90 ∧
    daysBefore 4 = 120 ∧ daysBefore 5 = 151 ∧ daysBefore 6 = 181 ∧ daysBefore 7 = 212 ∧
    daysBefore 8 = 243 ∧ daysBefore 9 = 273 ∧ daysBefore 10 = 304 ∧ daysBefore 11 = 334 ∧
    daysBefore 12 = 365 := by decide

theorem isLeap_iff (year : Int) :
    isLeap year = true ↔ year % 4 = 0 ∧ (year % 100 ≠ 0 ∨ year % 400 = 0) := by
  simp [isLeap]

/-- Month and day of the month of day `day` of a non-leap year, as `absDate`
estimates them, are a month and a day. -/
theorem monthDay_bounds (day : Int) (h0 : 0 ≤ day) (h1 : day ≤ 364) :
    (1 ≤ (if day ≥ daysBefore (day / 31 + 1) then day / 31 + 2 else day / 31 + 1) ∧
      (if day ≥ daysBefore (day / 31 + 1) then day / 31 + 2 else day / 31 + 1) ≤ 12) ∧
    (1 ≤ (if day ≥ daysBefore (day / 31 + 1) then day - daysBefore (day / 31 + 1) + 1
        else day - daysBefore (day / 31) + 1) ∧
      (if day ≥ daysBefore (day / 31 + 1) then day - daysBefore (day / 31 + 1) + 1
        else day - daysBefore (day / 31) + 1) ≤ 31) := by
  have hm0 : 0 ≤ day / 31 := by omega
  have hm1 : day / 31 ≤ 11 := by omega
  generalize hm : day / 31 = m at hm0 hm1 ⊢
  have hd : 31 * m ≤ day ∧ day < 31 * m + 31 := by omega
  obtain ⟨b0, b1, b2, b3, b4, b5, b6, b7, b8, b9, b10, b11, b12⟩ := daysBefore_vals
  interval_cases m <;> norm_num [b0, b1, b2, b3, b4, b5, b6, b7, b8, b9, b10, b11, b12] <;>
    (try split) <;> omega

/-- The day of the year `absDate` computes lies in `[0, 365]`, and day 365 only
occurs in a leap year. -/
theorem yday_facts (d n400 d1 n100 d2 n4 d3 n1 yday year : Int)
    (e0 : n400 = d / 146097) (e1 : d1 = d - 146097 * n400)
    (e2 : n100 = d1 / 36524 - d1 / 36524 / 4) (e3 : d2 = d1 - 36524 * n100)
    (e4 : n4 = d2 / 1461) (e5 : d3 = d2 - 1461 * n4)
    (e6 : n1 = d3 / 365 - d3 / 365 / 4) (e7 : yday = d3 - 365 * n1)
    (e8 : year = 400 * n400 + 100 * n100 + 4 * n4 + n1 + 1) :
    0 ≤ yday ∧ yday ≤ 365 ∧
      (yday = 365 → year % 4 = 0 ∧ (year % 100 ≠ 0 ∨ year % 400 = 0)) := by
  have h1 : 0 ≤ d1 ∧ d1 ≤ 146096 := by omega
  have h2 : 0 ≤ n100 ∧ n100 ≤ 3 := by omega
  have h3 : 0 ≤ d2 ∧ d2 ≤ 36524 ∧ (d2 = 36524 → n100 = 3) := by omega
  have h4 : 0 ≤ n4 ∧ n4 ≤ 24 := by omega
  have h5 : 0 ≤ d3 ∧ d3 ≤ 1460 ∧ (d3 = 1460 → n4 = 24 → d2 = 36524) := by omega
  have h6 : 0 ≤ n1 ∧ n1 ≤ 3 := by omega
  have h7 : 0 ≤ yday ∧ yday ≤ 365 ∧ (yday = 365 → d3 = 1460 ∧ n1 = 3) := by omega
  refine ⟨h7.1, h7.2.1, ?_⟩
  intro hy
  obtain ⟨hd3, hn1⟩ := h7.2.2 hy
  subst hn1
  by_cases h24 : n4 = 24
  · have := h3.2.2 (h5.2.2 hd3 h24)
    subst e8
    omega
  · subst e8
    omega

theorem absDate_bounds (abs : Int) :
    1 ≤ (absDate abs).2.1 ∧ (absDate abs).2.1 ≤ 12 ∧
    1 ≤ (absDate abs).2.2 ∧ (absDate abs).2.2 ≤ 31 := by
  unfold absDate
  lift_lets
  intro d n400 d1 n100 d2 n4 d3 n1 yday year day month fin
  have hy := yday_facts d n400 d1 n100 d2 n4 d3 n1 yday year rfl rfl rfl rfl rfl rfl rfl rfl rfl
  have hleap := isLeap_iff year
  clear_value yday year
  clear d n400 d1 n100 d2 n4 d3 n1
  by_cases h1 : isLeap year = true ∧ yday = 31 + 29 - 1
  · simp only [h1, and_self, if_true]
    norm_num
  · rw [if_neg h1]
    have hday : 0 ≤ day ∧ day ≤ 364 := by
      show 0 ≤ (if isLeap year = true ∧ yday > 31 + 29 - 1 then yday - 1 else yday) ∧
        (if isLeap year = true ∧ yday > 31 + 29 - 1 then yday - 1 else yday) ≤ 364
      split
      · omega
      · rename_i h2
        have : yday ≠ 365 := by
          intro e
          exact h2 ⟨hleap.2 (hy.2.2 e), by omega⟩
        omega
    have hb := monthDay_bounds day hday.1 hday.2
    by_cases h3 : day ≥ fin
    · have h3' : day ≥ daysBefore (day / 31 + 1) := h3
      rw [if_pos h3'] at hb
      rw [if_pos h3'] at hb
      rw [if_pos h3]
      exact ⟨hb.1.1, hb.1.2, hb.2.1, hb.2.2⟩
    · have h3' : ¬ day ≥ daysBefore (day / 31 + 1) := h3
      rw [if_neg h3'] at hb
      rw [if_neg h3'] at hb
      rw [if_neg h3]
      exact ⟨hb.1.1, hb.1.2, hb.2.1, hb.2.2⟩

/-- The five fields `ShouldRun` reads lie in the five domains, at every
timestamp. -/
theorem Time_fields_in_domain (t : Time) :
    (0 ≤ t.Minute ∧ t.Minute ≤ 59) ∧ (0 ≤ t.Hour ∧ t.Hour ≤ 23) ∧
    (1 ≤ t.Day ∧ t.Day ≤ 31) ∧ (1 ≤ t.Month ∧ t.Month ≤ 12) ∧
    (0 ≤ t.Weekday ∧ t.Weekday ≤ 6) := by
  obtain ⟨m1, m2, d1, d2⟩ := absDate_bounds t.abs
  refine ⟨?_, ?_, ⟨d1, d2⟩, ⟨m1, m2⟩, ?_⟩
  · unfold Time.Minute; omega
  · unfold Time.Hour; omega
  · unfold Time.Weekday; omega

/-! ## Compiled fields and the jobs of config lines -/

/-- For a value of the domain, membership in the set a field compiles to: the
field is the wildcard, or the value is the value of one of its items. -/
theorem fieldResult_mem (f : GoString) (lo hi : Int) (hlo : isInt lo) (hhi : isInt hi)
    (S : Matcher) (h : fieldResult f lo hi = .ok S) (v : Int) (hv : lo ≤ v ∧ v ≤ hi) :
    v ∈ S ↔ (f = ['*'] ∨ ∃ item ∈ Split f ',', intLiteral item = some v) := by
  unfold fieldResult at h
  by_cases hstar : f = ['*']
  · simp only [hstar, if_true, Except.ok.injEq] at h
    subst h
    simp [hstar, hv]
  · simp only [hstar, if_false] at h
    obtain ⟨S', hS', hmem⟩ := parseItems_ok (Split f ',') lo hi ∅
      (parseItems_ok_all _ lo hi ∅ S h)
    rw [h] at hS'
    cases hS'
    rw [hmem v]
    simp only [Finset.not_mem_empty, false_or, hstar]
    constructor
    · rintro ⟨x, hx, hxv⟩
      exact ⟨x, hx, ((Atoi_eq_some_iff _ _).1 hxv).1⟩
    · rintro ⟨x, hx, hxv⟩
      exact ⟨x, hx, (Atoi_eq_some_iff _ _).2 ⟨hxv, le_trans hlo.1 hv.1, le_trans hv.2 hhi.2⟩⟩

/-- A set a field compiles to holds values of the domain only, and at least
one when the domain is not empty. -/
theorem fieldResult_sound (f : GoString) (lo hi : Int) (S : Matcher)
    (h : fieldResult f lo hi = .ok S) :
    (∀ v ∈ S, lo ≤ v ∧ v ≤ hi) ∧ (lo ≤ hi → S.Nonempty) := by
  unfold fieldResult at h
  by_cases hstar : f = ['*']
  · simp only [hstar, if_true, Except.ok.injEq] at h
    subst h
    exact ⟨fun v hv => Finset.mem_Icc.1 hv, fun hle => ⟨lo, Finset.mem_Icc.2 ⟨le_refl _, hle⟩⟩⟩
  · simp only [hstar, if_false] at h
    have hall := parseItems_ok_all _ lo hi ∅ S h
    obtain ⟨S', hS', hmem⟩ := parseItems_ok (Split f ',') lo hi ∅ hall
    rw [h] at hS'
    cases hS'
    constructor
    · intro v hv
      obtain ⟨x, hx, hxv⟩ := by simpa using (hmem v).1 hv
      obtain ⟨w, hw, h1, h2⟩ := hall x hx
      rw [hxv] at hw
      cases hw
      exact ⟨h1, h2⟩
    · intro _
      obtain ⟨tl, rest, e⟩ := splitAux_head ',' [] f
      have hx : ([] : GoString).reverse ++ tl ∈ Split f ',' := by
        unfold Split; rw [e]; exact List.mem_cons_self _ _
      obtain ⟨w, hw, _, _⟩ := hall _ hx
      exact ⟨w, (hmem w).2 (Or.inr ⟨_, hx, hw⟩)⟩

theorem scheduleResult_ok (j j' : Job) (r0 r1 r2 r3 r4 : Except FieldError Matcher)
    (h : scheduleResult j r0 r1 r2 r3 r4 = (j', none)) :
    r0 = .ok j'.minutes ∧ r1 = .ok j'.hours ∧ r2 = .ok j'.daysOfMonth ∧ r3 = .ok j'.months ∧
    r4 = .ok j'.daysOfWeek ∧ j'.Schedule = j.Schedule ∧ j'.FullCommand = j.FullCommand := by
  cases r0 <;> cases r1 <;> cases r2 <;> cases r3 <;> cases r4 <;>
    simp [scheduleResult] at h
  subst h
  simp

/-- The job of the scanned line `0 9 * * 1 echo hello` is `mondayJob`. -/
theorem lineJob_monday : lineJob "0 9 * * 1 echo hello".toList = some mondayJob := by
  have hT : TrimSpace "0 9 * * 1 echo hello".toList = "0 9 * * 1 echo hello".toList := by
    decide
  have hF : Fields "0 9 * * 1 echo hello".toList =
      [['0'], ['9'], ['*'], ['*'], ['1'], "echo".toList, "hello".toList] := by decide
  have e0 : fieldResult ['0'] 0 59 = .ok {0} := by decide
  have e1 : fieldResult ['9'] 0 23 = .ok {9} := by decide
  have e2 : fieldResult ['*'] 1 31 = .ok (Finset.Icc 1 31) := by decide
  have e3 : fieldResult ['*'] 1 12 = .ok (Finset.Icc 1 12) := by decide
  have e4 : fieldResult ['1'] 0 6 = .ok {1} := by decide
  unfold lineJob
  simp only [hT]
  rw [if_neg (by decide), hF]
  simp only [e0, e1, e2, e3, e4]
  rfl

theorem Fields_spaces_append (w b : GoString) (hw : ∀ c ∈ w, isSpace c = true) :
    Fields (w ++ b) = Fields b := by
  by_cases h : w = []
  · simp [h]
  · have := Fields_append_spaces [] w b hw h
    simpa [Fields_spaces [] (by simp)] using this

theorem Fields_append_spaces_end (a w : GoString) (hw : ∀ c ∈ w, isSpace c = true) :
    Fields (a ++ w) = Fields a := by
  by_cases h : w = []
  · simp [h]
  · have := Fields_append_spaces a w [] hw h
    simpa [Fields_spaces [] (by simp)] using this

theorem Fields_dropWhile (s : GoString) : Fields (s.dropWhile isSpace) = Fields s := by
  conv_rhs => rw [← List.takeWhile_append_dropWhile isSpace s]
  rw [Fields_spaces_append]
  intro c hc
  exact (List.mem_takeWhile_imp hc)

/-- Trimming does not change the fields of a line. -/
theorem Fields_TrimSpace (s : GoString) : Fields (TrimSpace s) = Fields s := by
  unfold TrimSpace
  rw [← Fields_dropWhile s]
  generalize s.dropWhile isSpace = u
  have e : u = (u.reverse.dropWhile isSpace).reverse ++ (u.reverse.takeWhile isSpace).reverse := by
    rw [← List.reverse_append, List.takeWhile_append_dropWhile, List.reverse_reverse]
  conv_rhs => rw [e]
  rw [Fields_append_spaces_end]
  intro c hc
  exact List.mem_takeWhile_imp (List.mem_reverse.1 hc)

/-- What a line that gives a job looks like, and the job it gives. -/
theorem lineJob_spec (text : GoString) (job : Job) (h : lineJob text = some job) :
    TrimSpace text ≠ [] ∧ HasPrefix (TrimSpace text) ['#'] = false ∧
    ∃ f0 f1 f2 f3 f4 f5 rest, Fields (TrimSpace text) = f0 :: f1 :: f2 :: f3 :: f4 :: f5 :: rest ∧
      job.Schedule = Join [f0, f1, f2, f3, f4] [' '] ∧
      job.FullCommand = Join (f5 :: rest) [' '] ∧
      fieldResult f0 0 59 = .ok job.minutes ∧ fieldResult f1 0 23 = .ok job.hours ∧
      fieldResult f2 1 31 = .ok job.daysOfMonth ∧ fieldResult f3 1 12 = .ok job.months ∧
      fieldResult f4 0 6 = .ok job.daysOfWeek := by
  unfold lineJob at h
  by_cases hc : TrimSpace text = [] ∨ HasPrefix (TrimSpace text) ['#'] = true
  · simp [hc] at h
  · simp only [hc, if_false] at h
    have hc' : TrimSpace text ≠ [] ∧ HasPrefix (TrimSpace text) ['#'] = false := by
      constructor
      · intro e; exact hc (Or.inl e)
      · cases hp : HasPrefix (TrimSpace text) ['#']
        · rfl
        · exact absurd (Or.inr hp) hc
    refine ⟨hc'.1, hc'.2, ?_⟩
    rcases hF : Fields (TrimSpace text) with
      _ | ⟨f0, _ | ⟨f1, _ | ⟨f2, _ | ⟨f3, _ | ⟨f4, _ | ⟨f5, rest⟩⟩⟩⟩⟩⟩
    all_goals rw [hF] at h
    all_goals try (simp at h; done)
    refine ⟨f0, f1, f2, f3, f4, f5, rest, rfl, ?_⟩
    simp only at h
    rcases hs : scheduleResult
      { Schedule := Join [f0, f1, f2, f3, f4] [' '], FullCommand := Join (f5 :: rest) [' '] }
      (fieldResult f0 0 59) (fieldResult f1 0 23) (fieldResult f2 1 31)
      (fieldResult f3 1 12) (fieldResult f4 0 6) with ⟨j', _ | err⟩
    · rw [hs] at h
      simp only [Option.some.injEq] at h
      subst h
      obtain ⟨h0, h1, h2, h3, h4, hS, hC⟩ := scheduleResult_ok _ _ _ _ _ _ _ hs
      exact ⟨hS, hC, h0, h1, h2, h3, h4⟩
    · rw [hs] at h
      simp at h

/-- Conversely a line of that look gives a job. -/
theorem lineJob_complete (text : GoString) (f0 f1 f2 f3 f4 f5 : GoString) (rest : List GoString)
    (m0 m1 m2 m3 m4 : Matcher)
    (hne : TrimSpace text ≠ []) (hp : HasPrefix (TrimSpace text) ['#'] = false)
    (hF : Fields (TrimSpace text) = f0 :: f1 :: f2 :: f3 :: f4 :: f5 :: rest)
    (h0 : fieldResult f0 0 59 = .ok m0) (h1 : fieldResult f1 0 23 = .ok m1)
    (h2 : fieldResult f2 1 31 = .ok m2) (h3 : fieldResult f3 1 12 = .ok m3)
    (h4 : fieldResult f4 0 6 = .ok m4) :
    lineJob text = some
      { Schedule := Join [f0, f1, f2, f3, f4] [' '], FullCommand := Join (f5 :: rest) [' '],
        minutes := m0, hours := m1, daysOfMonth := m2, months := m3, daysOfWeek := m4 } := by
  unfold lineJob
  have hc : ¬ (TrimSpace text = [] ∨ HasPrefix (TrimSpace text) ['#'] = true) := by
    rintro (e | e)
    · exact hne e
    · rw [hp] at e; cases e
  simp only [hc, if_false, hF, h0, h1, h2, h3, h4]
  rfl

theorem checkLoop_eq (now : Time) (jobs launched : List Job) :
    checkLoop now jobs launched = launched ++ jobs.filter (fun j => j.ShouldRun now) := by
  induction jobs generalizing launched with
  | nil => simp [checkLoop]
  | cons j rest ih =>
    by_cases h : j.ShouldRun now = true
    · simp [checkLoop, h, ih]
    · simp [checkLoop, h, ih]

/-! ## The scanner and `LoadConfig` -/

theorem rawLinesAux_noNewline (cur s : GoString) (h : '\n' ∉ s) :
    rawLinesAux cur s = if cur.reverse ++ s = [] then [] else [cur.reverse ++ s] := by
  induction s generalizing cur with
  | nil => simp [rawLinesAux]
  | cons c cs ih =>
    have hc : c ≠ '\n' := fun e => h (by simp [e])
    have hcs : '\n' ∉ cs := fun e => h (List.mem_cons_of_mem _ e)
    simp [rawLinesAux, hc, ih _ hcs]

theorem rawLinesAux_newline (cur a b : GoString) (h : '\n' ∉ a) :
    rawLinesAux cur (a ++ '\n' :: b) = (cur.reverse ++ a) :: rawLines b := by
  induction a generalizing cur with
  | nil => simp [rawLinesAux, rawLines]
  | cons c cs ih =>
    have hc : c ≠ '\n' := fun e => h (by simp [e])
    have hcs : '\n' ∉ cs := fun e => h (List.mem_cons_of_mem _ e)
    simp [rawLinesAux, hc, ih _ hcs]

theorem byteLen_append (a b : GoString) : byteLen (a ++ b) = byteLen a + byteLen b := by
  simp [byteLen]

theorem byteLen_replicate_x (n : Nat) : byteLen (List.replicate n 'x') = n := by
  have h : Char.utf8Size 'x' = 1 := by decide
  simp [byteLen, h]

/-- What `LoadConfig` returns for a file that opens: an error when a raw line
does not fit the buffer of the scanner or a read fails, and otherwise the jobs of
its lines, in the order of the lines. -/
theorem LoadConfig_eq (f : File) :
    LoadConfig (some f) =
      if (rawLines f.data).any (fun raw => decide (maxScanTokenSize ≤ byteLen raw)) then
        some (.error .errorReading)
      else if f.readErr then some (.error .errorReading)
      else some (.ok ⟨((rawLines f.data).map dropCR).filterMap lineJob⟩) := by
  unfold LoadConfig
  simp only [loadLoop_eq]
  split <;> simp

theorem threeLineFile_loads : LoadConfig (some threeLineFile) = some (.ok ⟨[mondayJob]⟩) := by
  have hl : rawLines threeLineFile.data =
      ["# jobs".toList, "0 9 * * 1 echo hello".toList, "1 2 3 4".toList] := by decide
  have h1 : lineJob "# jobs".toList = none := by decide
  have h3 : lineJob "1 2 3 4".toList = none := by decide
  have hd : (["# jobs".toList, "0 9 * * 1 echo hello".toList, "1 2 3 4".toList].map dropCR) =
      ["# jobs".toList, "0 9 * * 1 echo hello".toList, "1 2 3 4".toList] := by decide
  rw [LoadConfig_eq, hl, if_neg (by decide), if_neg (by decide), hd]
  simp only [List.filterMap_cons, List.filterMap_nil, h1, h3, lineJob_monday]

theorem replicate_x_noNewline (n : Nat) : '\n' ∉ List.replicate n 'x' := by
  intro h
  exact absurd (List.eq_of_mem_replicate h) (by decide)

theorem rawLines_two (a R : GoString) (ha : '\n' ∉ a) (hR : '\n' ∉ R) (hne : R ≠ []) :
    rawLines (a ++ '\n' :: R) = [a, R] := by
  unfold rawLines
  rw [rawLinesAux_newline _ _ _ ha]
  unfold rawLines
  rw [rawLinesAux_noNewline _ _ hR]
  simp [hne]

theorem longLineFile_lines :
    rawLines longLineFile.data =
      ["0 9 * * 1 echo hello".toList, List.replicate 65536 'x'] := by
  have hR := replicate_x_noNewline 65536
  have hne : List.replicate 65536 'x' ≠ [] := by
    intro h
    have := congrArg List.length h
    rw [List.length_replicate] at this
    exact absurd this (by decide)
  unfold longLineFile
  show rawLines ("0 9 * * 1 echo hello\n".toList ++ List.replicate 65536 'x') = _
  generalize List.replicate 65536 'x' = R at hR hne ⊢
  exact rawLines_two "0 9 * * 1 echo hello".toList R (by decide) hR hne

/-! ## Further helper facts -/

theorem any_long_false (lines : List GoString)
    (h : ∀ raw ∈ lines, byteLen raw < maxScanTokenSize) :
    lines.any (fun raw => decide (maxScanTokenSize ≤ byteLen raw)) = false := by
  rw [List.any_eq_false]
  intro raw hraw
  have := h raw hraw
  simp only [decide_eq_true_eq]
  omega

theorem getD_cons5 (f0 f1 f2 f3 f4 f5 : GoString) (rest : List GoString) :
    (f0 :: f1 :: f2 :: f3 :: f4 :: f5 :: rest).getD 0 [] = f0 ∧
    (f0 :: f1 :: f2 :: f3 :: f4 :: f5 :: rest).getD 1 [] = f1 ∧
    (f0 :: f1 :: f2 :: f3 :: f4 :: f5 :: rest).getD 2 [] = f2 ∧
    (f0 :: f1 :: f2 :: f3 :: f4 :: f5 :: rest).getD 3 [] = f3 ∧
    (f0 :: f1 :: f2 :: f3 :: f4 :: f5 :: rest).getD 4 [] = f4 := by
  simp

theorem length_six {α : Type} (l : List α) (h : 6 ≤ l.length) :
    ∃ a b c d e f rest, l = a :: b :: c :: d :: e :: f :: rest := by
  rcases l with _ | ⟨a, _ | ⟨b, _ | ⟨c, _ | ⟨d, _ | ⟨e, _ | ⟨f, g⟩⟩⟩⟩⟩⟩ <;>
    simp at h
  exact ⟨a, b, c, d, e, f, g, rfl⟩

theorem parseField_ok_iff_fieldResult (f : GoString) (lo hi : Int) (hlo : minInt ≤ lo)
    (hhi : hi < maxInt) :
    (∃ m, parseField f lo hi = some (.ok m)) ↔ ∃ m, fieldResult f lo hi = .ok m := by
  rw [parseField_eq f lo hi hlo hhi]
  simp

/-- A scanned line gives a job exactly when, trimmed, it is not empty, does not
start with `#`, has six fields or more, and its first five fields compile in the
five domains. -/
theorem lineJob_isSome_iff (text : GoString) :
    (∃ job, lineJob text = some job) ↔
      TrimSpace text ≠ [] ∧ HasPrefix (TrimSpace text) ['#'] = false ∧
      6 ≤ (Fields (TrimSpace text)).length ∧
      (∃ m, parseField ((Fields (TrimSpace text)).getD 0 []) 0 59 = some (.ok m)) ∧
      (∃ m, parseField ((Fields (TrimSpace text)).getD 1 []) 0 23 = some (.ok m)) ∧
      (∃ m, parseField ((Fields (TrimSpace text)).getD 2 []) 1 31 = some (.ok m)) ∧
      (∃ m, parseField ((Fields (TrimSpace text)).getD 3 []) 1 12 = some (.ok m)) ∧
      (∃ m, parseField ((Fields (TrimSpace text)).getD 4 []) 0 6 = some (.ok m)) := by
  rw [parseField_ok_iff_fieldResult _ 0 59 (by decide) (by decide),
    parseField_ok_iff_fieldResult _ 0 23 (by decide) (by decide),
    parseField_ok_iff_fieldResult _ 1 31 (by decide) (by decide),
    parseField_ok_iff_fieldResult _ 1 12 (by decide) (by decide),
    parseField_ok_iff_fieldResult _ 0 6 (by decide) (by decide)]
  constructor
  · rintro ⟨job, h⟩
    obtain ⟨hne, hp, f0, f1, f2, f3, f4, f5, rest, hF, _, _, h0, h1, h2, h3, h4⟩ :=
      lineJob_spec text job h
    obtain ⟨g0, g1, g2, g3, g4⟩ := getD_cons5 f0 f1 f2 f3 f4 f5 rest
    rw [hF, g0, g1, g2, g3, g4]
    exact ⟨hne, hp, by simp, ⟨_, h0⟩, ⟨_, h1⟩, ⟨_, h2⟩, ⟨_, h3⟩, ⟨_, h4⟩⟩
  · rintro ⟨hne, hp, hlen, h⟩
    obtain ⟨f0, f1, f2, f3, f4, f5, rest, hF⟩ := length_six _ hlen
    obtain ⟨g0, g1, g2, g3, g4⟩ := getD_cons5 f0 f1 f2 f3 f4 f5 rest
    rw [hF, g0, g1, g2, g3, g4] at h
    obtain ⟨⟨m0, h0⟩, ⟨m1, h1⟩, ⟨m2, h2⟩, ⟨m3, h3⟩, ⟨m4, h4⟩⟩ := h
    exact ⟨_, lineJob_complete text f0 f1 f2 f3 f4 f5 rest m0 m1 m2 m3 m4 hne hp hF
      h0 h1 h2 h3 h4⟩

theorem scheduleResult_self (j : Job) :
    scheduleResult j (.ok j.minutes) (.ok j.hours) (.ok j.daysOfMonth) (.ok j.months)
      (.ok j.daysOfWeek) = (j, none) := by
  cases j
  rfl

/-- A job a line of a config file gives carries the five sets its schedule
compiles to. -/
theorem lineJob_fully_built (text : GoString) (job : Job) (h : lineJob text = some job) :
    ∃ f0 f1 f2 f3 f4, Fields job.Schedule = [f0, f1, f2, f3, f4] ∧
      fieldResult f0 0 59 = .ok job.minutes ∧ fieldResult f1 0 23 = .ok job.hours ∧
      fieldResult f2 1 31 = .ok job.daysOfMonth ∧ fieldResult f3 1 12 = .ok job.months ∧
      fieldResult f4 0 6 = .ok job.daysOfWeek := by
  obtain ⟨_, _, f0, f1, f2, f3, f4, f5, rest, hF, hS, _, h0, h1, h2, h3, h4⟩ :=
    lineJob_spec text job h
  have hmem := Fields_mem (TrimSpace text)
  rw [hF] at hmem
  refine ⟨f0, f1, f2, f3, f4, ?_, h0, h1, h2, h3, h4⟩
  rw [hS]
  apply Fields_Join
  intro f hf
  apply hmem
  simp only [List.mem_cons] at hf ⊢
  tauto

theorem scheduleResult_error_field (j j' : Job) (r0 r1 r2 r3 r4 : Except FieldError Matcher)
    (err : ScheduleError) (h : scheduleResult j r0 r1 r2 r3 r4 = (j', some err)) :
    (∃ e, r0 = .error e) ∨ (∃ e, r1 = .error e) ∨ (∃ e, r2 = .error e) ∨
      (∃ e, r3 = .error e) ∨ (∃ e, r4 = .error e) := by
  cases r0 <;> cases r1 <;> cases r2 <;> cases r3 <;> cases r4 <;>
    simp [scheduleResult] at h ⊢

/-- The job of `* * * * * cmd` is `everyMinuteJob`. -/
theorem everyMinuteJob_parses :
    Job.parseSchedule { Schedule := "* * * * *".toList, FullCommand := "cmd".toList } =
      some (everyMinuteJob, none) := by
  rw [parseSchedule_five _ ['*'] ['*'] ['*'] ['*'] ['*'] (by decide)]
  have e0 : fieldResult ['*'] 0 59 = .ok (Finset.Icc 0 59) := by decide
  have e1 : fieldResult ['*'] 0 23 = .ok (Finset.Icc 0 23) := by decide
  have e2 : fieldResult ['*'] 1 31 = .ok (Finset.Icc 1 31) := by decide
  have e3 : fieldResult ['*'] 1 12 = .ok (Finset.Icc 1 12) := by decide
  have e4 : fieldResult ['*'] 0 6 = .ok (Finset.Icc 0 6) := by decide
  rw [e0, e1, e2, e3, e4]
  rfl

/-- End to end, where the location keeps whole minutes: a job that
`parseSchedule` accepts is due exactly when, in each of the five positions, the
field is the wildcard or the component of the timestamp is the value of one of
the field's items. -/
theorem ShouldRun_end_to_end (j j' : Job) (f0 f1 f2 f3 f4 : GoString)
    (hF : Fields j.Schedule = [f0, f1, f2, f3, f4])
    (hp : j.parseSchedule = some (j', none)) (t : Time) (hz : wholeMinuteZone t) :
    j'.ShouldRun t = true ↔
      (f0 = ['*'] ∨ ∃ item ∈ Split f0 ',', intLiteral item = some t.Minute) ∧
      (f1 = ['*'] ∨ ∃ item ∈ Split f1 ',', intLiteral item = some t.Hour) ∧
      (f2 = ['*'] ∨ ∃ item ∈ Split f2 ',', intLiteral item = some t.Day) ∧
      (f3 = ['*'] ∨ ∃ item ∈ Split f3 ',', intLiteral item = some t.Month) ∧
      (f4 = ['*'] ∨ ∃ item ∈ Split f4 ',', intLiteral item = some t.Weekday) := by
  rw [parseSchedule_five j f0 f1 f2 f3 f4 hF] at hp
  simp only [Option.some.injEq] at hp
  obtain ⟨h0, h1, h2, h3, h4, _, _⟩ := scheduleResult_ok _ _ _ _ _ _ _ hp
  obtain ⟨b0, b1, b2, b3, b4⟩ := Time_fields_in_domain t
  rw [ShouldRun_iff_of_wholeMinuteZone j' t hz,
    fieldResult_mem f0 0 59 (by decide) (by decide) _ h0 _ b0,
    fieldResult_mem f1 0 23 (by decide) (by decide) _ h1 _ b1,
    fieldResult_mem f2 1 31 (by decide) (by decide) _ h2 _ b2,
    fieldResult_mem f3 1 12 (by decide) (by decide) _ h3 _ b3,
    fieldResult_mem f4 0 6 (by decide) (by decide) _ h4 _ b4]

/-! ## The claims, continued -/

/-- Claim C11, evaluated at an input where the code departs from it.  The config
line `0 9 * * 1 echo hello` loads as `mondayJob`.  On a wall clock 19 minutes 32
seconds ahead of UTC, Monday, January 1, 2024, 09:00:00 has the minute 0, the
hour 9 and the weekday 1 that the items `0`, `9` and `1` name, and the other two
fields are wildcards, yet `ShouldRun` answers false: the truncated instant reads
08:59:32 on that wall clock.  In UTC the job is due at that Monday 09:00, not
due at 09:01 and not due at the Tuesday 09:00. -/
theorem loaded_job_not_due_on_monday_at_nine :
    LoadConfig (some { data := "0 9 * * 1 echo hello".toList }) = some (.ok ⟨[mondayJob]⟩) ∧
    (mondayNineAmsterdam.Year = 2024 ∧ mondayNineAmsterdam.Month = 1 ∧
      mondayNineAmsterdam.Day = 1 ∧ mondayNineAmsterdam.Weekday = 1 ∧
      mondayNineAmsterdam.Hour = 9 ∧ mondayNineAmsterdam.Minute = 0 ∧
      mondayNineAmsterdam.Second = 0) ∧
    (Fields mondayJob.Schedule = [['0'], ['9'], ['*'], ['*'], ['1']] ∧
      intLiteral ['0'] = some mondayNineAmsterdam.Minute ∧
      intLiteral ['9'] = some mondayNineAmsterdam.Hour ∧
      intLiteral ['1'] = some mondayNineAmsterdam.Weekday) ∧
    mondayJob.ShouldRun mondayNineAmsterdam = false ∧
    ((mondayNineAmsterdam.Truncate Duration.Minute).Hour = 8 ∧
      (mondayNineAmsterdam.Truncate Duration.Minute).Minute = 59 ∧
      (mondayNineAmsterdam.Truncate Duration.Minute).Second = 32) ∧
    (mondayNine.Weekday = 1 ∧ mondayNine.Hour = 9 ∧ mondayNine.Minute = 0 ∧
      mondayJob.ShouldRun mondayNine = true) ∧
    (mondayNineOne.Weekday = 1 ∧ mondayNineOne.Hour = 9 ∧ mondayNineOne.Minute = 1 ∧
      mondayJob.ShouldRun mondayNineOne = false) ∧
    (tuesdayNine.Weekday = 2 ∧ tuesdayNine.Hour = 9 ∧ tuesdayNine.Minute = 0 ∧
      mondayJob.ShouldRun tuesdayNine = false) := by
  refine ⟨?_, by decide, by decide, by decide, by decide, by decide, by decide, by decide⟩
  have hl : rawLines "0 9 * * 1 echo hello".toList = ["0 9 * * 1 echo hello".toList] := by
    decide
  have hd : (["0 9 * * 1 echo hello".toList].map dropCR) = ["0 9 * * 1 echo hello".toList] := by
    decide
  rw [LoadConfig_eq]
  simp only [hl]
  rw [if_neg (by decide), if_neg (by decide), hd]
  simp only [List.filterMap_cons, List.filterMap_nil, lineJob_monday]

/-- Claim C12 fails for a file with a line of 65536 bytes or more.  The file of
the job line `0 9 * * 1 echo hello` followed by a line of 65536 letters opens and
is read to its end, and its first line gives a job, but `LoadConfig` returns the
reading error and no jobs: the scanner stops with `bufio.ErrTooLong`. -/
theorem LoadConfig_no_jobs_with_long_line :
    longLineFile.readErr = false ∧
    rawLines longLineFile.data = ["0 9 * * 1 echo hello".toList, List.replicate 65536 'x'] ∧
    lineJob "0 9 * * 1 echo hello".toList = some mondayJob ∧
    byteLen (List.replicate 65536 'x') = 65536 ∧
    LoadConfig (some longLineFile) = some (.error .errorReading) ∧
    ¬ ∃ cfg, LoadConfig (some longLineFile) = some (.ok cfg) := by
  have hlen := byteLen_replicate_x 65536
  have hl := longLineFile_lines
  have hL : LoadConfig (some longLineFile) = some (.error .errorReading) := by
    rw [LoadConfig_eq, hl]
    generalize List.replicate 65536 'x' = R at hlen
    have : (["0 9 * * 1 echo hello".toList, R].any
        fun raw => decide (maxScanTokenSize ≤ byteLen raw)) = true := by
      simp only [List.any_cons, List.any_nil, hlen]
      decide
    rw [if_pos this]
  refine ⟨rfl, hl, lineJob_monday, hlen, hL, ?_⟩
  rintro ⟨cfg, h⟩
  rw [hL] at h
  cases h

/-- Claim C12, amended.  For a file that opens, whose reads do not fail and whose
lines are each shorter than 65536 bytes, `LoadConfig` returns the jobs of the
scanned lines, in the order of the lines and at most one per line; a line gives a
job exactly when, trimmed, it is not empty, does not start with `#`, has six
fields or more, and its first five fields compile in the five domains; and that
job is what the body of the loop appends for the line. -/
theorem LoadConfig_jobs_of_lines (f : File) (hread : f.readErr = false)
    (hshort : ∀ raw ∈ rawLines f.data, byteLen raw < maxScanTokenSize) :
    LoadConfig (some f) =
      some (.ok ⟨((rawLines f.data).map dropCR).filterMap lineJob⟩) ∧
    (∀ text, (∃ job, lineJob text = some job) ↔
      TrimSpace text ≠ [] ∧ HasPrefix (TrimSpace text) ['#'] = false ∧
      6 ≤ (Fields (TrimSpace text)).length ∧
      (∃ m, parseField ((Fields (TrimSpace text)).getD 0 []) 0 59 = some (.ok m)) ∧
      (∃ m, parseField ((Fields (TrimSpace text)).getD 1 []) 0 23 = some (.ok m)) ∧
      (∃ m, parseField ((Fields (TrimSpace text)).getD 2 []) 1 31 = some (.ok m)) ∧
      (∃ m, parseField ((Fields (TrimSpace text)).getD 3 []) 1 12 = some (.ok m)) ∧
      (∃ m, parseField ((Fields (TrimSpace text)).getD 4 []) 0 6 = some (.ok m))) ∧
    (∀ jobs text, loadLine jobs text = some (jobs ++ (lineJob text).toList)) := by
  refine ⟨?_, lineJob_isSome_iff, loadLine_eq⟩
  rw [LoadConfig_eq, any_long_false _ hshort, hread]
  simp

/-- Claim C12, amended, at the file of a comment line, the job line
`0 9 * * 1 echo hello` and the four-field line `1 2 3 4`: exactly one job. -/
theorem LoadConfig_jobs_of_lines_witness :
    (threeLineFile.readErr = false ∧
      ∀ raw ∈ rawLines threeLineFile.data, byteLen raw < maxScanTokenSize) ∧
    rawLines threeLineFile.data =
      ["# jobs".toList, "0 9 * * 1 echo hello".toList, "1 2 3 4".toList] ∧
    LoadConfig (some threeLineFile) = some (.ok ⟨[mondayJob]⟩) := by
  have hl : rawLines threeLineFile.data =
      ["# jobs".toList, "0 9 * * 1 echo hello".toList, "1 2 3 4".toList] := by decide
  have hshort : ∀ raw ∈ rawLines threeLineFile.data, byteLen raw < maxScanTokenSize := by
    rw [hl]
    intro raw hraw
    simp only [List.mem_cons, List.mem_singleton, List.not_mem_nil, or_false] at hraw
    rcases hraw with rfl | rfl | rfl <;> decide
  have h := (LoadConfig_jobs_of_lines threeLineFile rfl hshort).1
  have h1 : lineJob "# jobs".toList = none := by decide
  have h3 : lineJob "1 2 3 4".toList = none := by decide
  have hd : (["# jobs".toList, "0 9 * * 1 echo hello".toList, "1 2 3 4".toList].map dropCR) =
      ["# jobs".toList, "0 9 * * 1 echo hello".toList, "1 2 3 4".toList] := by decide
  rw [hl, hd] at h
  simp only [List.filterMap_cons, List.filterMap_nil, h1, h3, lineJob_monday] at h
  exact ⟨⟨rfl, hshort⟩, hl, h⟩

/-- Claim C13.  When the body of the loop of `LoadConfig` appends a job for a
scanned line, the line has six fields or more, the schedule of the job is the
first five fields joined by single spaces and its command is the remaining fields
joined by single spaces; cutting the schedule and the command into fields again
gives back the fields of the line, each as it was and in the same order. -/
theorem loadLine_job_fields (jobs : List Job) (text : GoString) (job : Job)
    (h : loadLine jobs text = some (jobs ++ [job])) :
    6 ≤ (Fields text).length ∧
    job.Schedule = Join ((Fields text).take 5) [' '] ∧
    job.FullCommand = Join ((Fields text).drop 5) [' '] ∧
    Fields job.Schedule = (Fields text).take 5 ∧
    Fields job.FullCommand = (Fields text).drop 5 ∧
    Fields job.Schedule ++ Fields job.FullCommand = Fields text := by
  rw [loadLine_eq] at h
  have hj : lineJob text = some job := by
    cases hl : lineJob text with
    | none => rw [hl] at h; simp at h
    | some j' => rw [hl] at h; simp at h; rw [h]
  obtain ⟨_, _, f0, f1, f2, f3, f4, f5, rest, hF, hS, hC, _⟩ := lineJob_spec text job hj
  rw [Fields_TrimSpace] at hF
  have hmem := Fields_mem text
  rw [hF] at hmem
  have h1 : Fields job.Schedule = [f0, f1, f2, f3, f4] := by
    rw [hS]
    apply Fields_Join
    intro f hf
    apply hmem
    simp only [List.mem_cons] at hf ⊢
    tauto
  have h2 : Fields job.FullCommand = f5 :: rest := by
    rw [hC]
    apply Fields_Join
    intro f hf
    apply hmem
    simp only [List.mem_cons] at hf ⊢
    tauto
  rw [h1, h2, hS, hC, hF]
  simp

/-- Claim C13 at the line ` 0 9 * * 1  echo` tab `hello world `: the schedule is
`0 9 * * 1` and the command is `echo hello world`. -/
theorem loadLine_job_fields_witness :
    loadLine [] " 0 9 * * 1  echo\thello world ".toList =
      some ([] ++ [{ mondayJob with FullCommand := "echo hello world".toList }]) ∧
    Fields " 0 9 * * 1  echo\thello world ".toList =
      [['0'], ['9'], ['*'], ['*'], ['1'], "echo".toList, "hello".toList, "world".toList] ∧
    ({ mondayJob with FullCommand := "echo hello world".toList } : Job).Schedule =
      "0 9 * * 1".toList ∧
    ({ mondayJob with FullCommand := "echo hello world".toList } : Job).FullCommand =
      "echo hello world".toList ∧
    Fields "0 9 * * 1".toList ++ Fields "echo hello world".toList =
      Fields " 0 9 * * 1  echo\thello world ".toList := by
  have hF : Fields (TrimSpace " 0 9 * * 1  echo\thello world ".toList) =
      [['0'], ['9'], ['*'], ['*'], ['1'], "echo".toList, "hello".toList, "world".toList] := by
    decide
  have hl : loadLine [] " 0 9 * * 1  echo\thello world ".toList =
      some ([] ++ [{ mondayJob with FullCommand := "echo hello world".toList }]) := by
    rw [loadLine_eq, lineJob_complete _ _ _ _ _ _ _ _ {0} {9} (Finset.Icc 1 31)
      (Finset.Icc 1 12) {1} (by decide) (by decide) hF (by decide) (by decide) (by decide)
      (by decide) (by decide)]
    rfl
  have h := loadLine_job_fields [] _ _ hl
  exact ⟨hl, by decide, rfl, rfl, h.2.2.2.2.2⟩

/-- Claim C14 fails for a file with a line of 65536 bytes or more.  The file of
one line of 65536 letters opens and is read to its end without a failing read,
but `LoadConfig` returns the reading error and no `Config`. -/
theorem LoadConfig_error_on_readable_file :
    onlyLongLineFile.readErr = false ∧
    rawLines onlyLongLineFile.data = [List.replicate 65536 'x'] ∧
    byteLen (List.replicate 65536 'x') = 65536 ∧ maxScanTokenSize = 65536 ∧
    LoadConfig (some onlyLongLineFile) = some (.error .errorReading) := by
  have hlen := byteLen_replicate_x 65536
  have hR := replicate_x_noNewline 65536
  have hne : List.replicate 65536 'x' ≠ [] := by
    intro h
    have := congrArg List.length h
    rw [List.length_replicate] at this
    exact absurd this (by decide)
  have hl : rawLines onlyLongLineFile.data = [List.replicate 65536 'x'] := by
    unfold onlyLongLineFile rawLines
    show rawLinesAux [] (List.replicate 65536 'x') = _
    generalize List.replicate 65536 'x' = R at hR hne ⊢
    rw [rawLinesAux_noNewline _ _ hR]
    simp [hne]
  refine ⟨rfl, hl, hlen, by decide, ?_⟩
  rw [LoadConfig_eq, hl]
  generalize List.replicate 65536 'x' = R at hlen
  have : ([R].any fun raw => decide (maxScanTokenSize ≤ byteLen raw)) = true := by
    simp only [List.any_cons, List.any_nil, hlen]
    decide
  rw [if_pos this]

/-- Claim C14, amended.  For a file that opens, whose reads do not fail and whose
lines are each shorter than 65536 bytes, `LoadConfig` returns a `Config` and no
error, whatever its lines hold.  The only errors of `LoadConfig`: the file does
not open, a read fails, or a line has 65536 bytes or more; it always returns.
With a line put between two lists of lines, the jobs of the lines before and
after are those they give on their own, and a line that gives no job adds
nothing. -/
theorem LoadConfig_ok_of_short_lines (f : File) (hread : f.readErr = false)
    (hshort : ∀ raw ∈ rawLines f.data, byteLen raw < maxScanTokenSize) :
    (∃ cfg, LoadConfig (some f) = some (.ok cfg)) ∧
    (∀ g : File, (∃ err, LoadConfig (some g) = some (.error err)) ↔
      (g.readErr = true ∨ ∃ raw ∈ rawLines g.data, maxScanTokenSize ≤ byteLen raw)) ∧
    LoadConfig none = some (.error .couldNotOpen) ∧
    (∀ file, ∃ r, LoadConfig file = some r) ∧
    (∀ (before after : List GoString) (raw : GoString) (jb ja : List Job),
      loadLoop before [] = some (.ok jb) → loadLoop after [] = some (.ok ja) →
      byteLen raw < maxScanTokenSize →
      ∃ own, loadLine [] (dropCR raw) = some own ∧ own.length ≤ 1 ∧
        loadLoop (before ++ raw :: after) [] = some (.ok (jb ++ own ++ ja))) := by
  have hiff : ∀ g : File, (∃ err, LoadConfig (some g) = some (.error err)) ↔
      (g.readErr = true ∨ ∃ raw ∈ rawLines g.data, maxScanTokenSize ≤ byteLen raw) := by
    intro g
    rw [LoadConfig_eq]
    by_cases hany : (rawLines g.data).any (fun raw => decide (maxScanTokenSize ≤ byteLen raw))
        = true
    · rw [if_pos hany]
      have : ∃ raw ∈ rawLines g.data, maxScanTokenSize ≤ byteLen raw := by
        simpa using hany
      simp [this]
    · rw [if_neg hany]
      have hno : ¬ ∃ raw ∈ rawLines g.data, maxScanTokenSize ≤ byteLen raw := by
        simpa using hany
      cases hr : g.readErr <;> simp [hno]
  refine ⟨?_, hiff, rfl, ?_, ?_⟩
  · rw [LoadConfig_eq, any_long_false _ hshort, hread]
    simp
  · intro file
    cases file with
    | none => exact ⟨_, rfl⟩
    | some g =>
      rw [LoadConfig_eq]
      split
      · exact ⟨_, rfl⟩
      · split <;> exact ⟨_, rfl⟩
  · intro before after raw jb ja hb ha hraw
    refine ⟨(lineJob (dropCR raw)).toList, by rw [loadLine_eq]; simp, ?_, ?_⟩
    · cases lineJob (dropCR raw) <;> simp
    · rw [loadLoop_eq] at hb ha ⊢
      have hnl : ¬ (maxScanTokenSize ≤ byteLen raw) := by omega
      by_cases h1 : before.any (fun raw => decide (maxScanTokenSize ≤ byteLen raw)) = true
      · rw [if_pos h1] at hb; cases hb
      · by_cases h2 : after.any (fun raw => decide (maxScanTokenSize ≤ byteLen raw)) = true
        · rw [if_pos h2] at ha; cases ha
        · rw [if_neg h1] at hb
          rw [if_neg h2] at ha
          simp only [Option.some.injEq, Except.ok.injEq, List.nil_append] at hb ha
          subst hb
          subst ha
          simp only [Bool.not_eq_true] at h1 h2
          cases hlj : lineJob (dropCR raw) <;>
            simp [List.any_append, h1, h2, hnl, List.filterMap_append, List.filterMap_cons,
              hlj, List.filterMap_map]

/-- Claim C14, amended, at the file of a comment line, a job line and a
four-field line. -/
theorem LoadConfig_ok_of_short_lines_witness :
    (threeLineFile.readErr = false ∧
      ∀ raw ∈ rawLines threeLineFile.data, byteLen raw < maxScanTokenSize) ∧
    ∃ cfg, LoadConfig (some threeLineFile) = some (.ok cfg) := by
  have hl : rawLines threeLineFile.data =
      ["# jobs".toList, "0 9 * * 1 echo hello".toList, "1 2 3 4".toList] := by decide
  have hshort : ∀ raw ∈ rawLines threeLineFile.data, byteLen raw < maxScanTokenSize := by
    rw [hl]
    intro raw hraw
    simp only [List.mem_cons, List.mem_singleton, List.not_mem_nil, or_false] at hraw
    rcases hraw with rfl | rfl | rfl <;> decide
  exact ⟨⟨rfl, hshort⟩, (LoadConfig_ok_of_short_lines threeLineFile rfl hshort).1⟩

/-- Claim C15.  One call of `checkJobs` reads the clock once and starts `Run`
for exactly the jobs of the collection that `ShouldRun` accepts at that reading,
each once and in the order of the collection; two jobs that are both due are both
started, in their order. -/
theorem checkJobs_launches_due_jobs (clock : Clock) (jobs : List Job) :
    (checkJobs clock jobs).1 =
      jobs.filter (fun j => j.ShouldRun (clock.reading clock.calls)) ∧
    (checkJobs clock jobs).2.calls = clock.calls + 1 ∧
    (checkJobs clock jobs).2.reading = clock.reading ∧
    (∀ j, j ∈ (checkJobs clock jobs).1 ↔
      j ∈ jobs ∧ j.ShouldRun (clock.reading clock.calls) = true) ∧
    (∀ a b : Job, a.ShouldRun (clock.reading clock.calls) = true →
      b.ShouldRun (clock.reading clock.calls) = true →
      (checkJobs clock [a, b]).1 = [a, b]) := by
  have h : ∀ js, (checkJobs clock js).1 =
      js.filter (fun j => j.ShouldRun (clock.reading clock.calls)) := by
    intro js
    simp [checkJobs, Clock.Now, checkLoop_eq]
  refine ⟨h jobs, rfl, rfl, ?_, ?_⟩
  · intro j
    rw [h jobs, List.mem_filter]
  · intro a b ha hb
    rw [h]
    simp [List.filter, ha, hb]

/-- Claim C15 at a tick on Monday, January 1, 2024, 09:00 UTC over the jobs of
`0 9 * * 1`, `5 * * * *` and `* * * * *`: the first and the third are started, in
that order. -/
theorem checkJobs_launches_due_jobs_witness :
    (checkJobs mondayNineClock [mondayJob, minuteFiveJob, everyMinuteJob]).1 =
      [mondayJob, everyMinuteJob] ∧
    (checkJobs mondayNineClock [mondayJob, minuteFiveJob, everyMinuteJob]).2.calls = 1 := by
  have h := checkJobs_launches_due_jobs mondayNineClock [mondayJob, minuteFiveJob, everyMinuteJob]
  have h1 : mondayJob.ShouldRun (mondayNineClock.reading mondayNineClock.calls) = true := by
    decide
  have h2 : minuteFiveJob.ShouldRun (mondayNineClock.reading mondayNineClock.calls) = false := by
    decide
  have h3 : everyMinuteJob.ShouldRun (mondayNineClock.reading mondayNineClock.calls) = true := by
    decide
  refine ⟨?_, h.2.1⟩
  rw [h.1]
  simp [List.filter, h1, h2, h3]

/-- The first wake instant `nextTick` is a whole number of minutes after the
zero time, so its second within the minute of UTC and its nanosecond are zero;
it is after `now` and at most one minute after it; the sleep `nextTick.Sub(now)`
is their difference, more than zero and at most 60 seconds, and exactly 60
seconds when `now` is itself on a minute of UTC.  The wall-clock second of
`nextTick` is zero when the offset of the location at `nextTick` is a whole
number of minutes. -/
theorem nextTick_bounds (now : Time) :
    (nextTick now).ns % Duration.Minute = 0 ∧
    (nextTick now).sec % 60 = 0 ∧ (nextTick now).Nanosecond = 0 ∧
    now.ns < (nextTick now).ns ∧ (nextTick now).ns ≤ now.ns + Duration.Minute ∧
    firstSleep now = (nextTick now).ns - now.ns ∧
    0 < firstSleep now ∧ firstSleep now ≤ 60 * Duration.Second ∧
    (now.ns % Duration.Minute = 0 →
      (nextTick now).ns = now.ns + Duration.Minute ∧ firstSleep now = 60 * Duration.Second) ∧
    ((nextTick now).loc.offset (nextTick now).sec % 60 = 0 → (nextTick now).Second = 0) := by
  have hns : (nextTick now).ns = now.ns - now.ns % 60000000000 + 60000000000 := by
    unfold nextTick Time.Add Time.Truncate Duration.Minute Duration.Second
    simp only [show ¬ ((60 : Int) * 1000000000 ≤ 0) by decide, if_false]
    norm_num
  have hsleep : firstSleep now = (nextTick now).ns - now.ns := by
    unfold firstSleep Time.Sub Duration.max Duration.min
    rw [hns]
    have h1 : ¬ (now.ns - now.ns % 60000000000 + 60000000000 - now.ns > 2 ^ 63 - 1) := by
      omega
    have h2 : ¬ (now.ns - now.ns % 60000000000 + 60000000000 - now.ns < -(2 ^ 63)) := by
      omega
    rw [if_neg h1, if_neg h2]
  have hsec : (nextTick now).sec % 60 = 0 := by
    unfold Time.sec Duration.Second
    rw [hns]
    omega
  refine ⟨?_, hsec, ?_, ?_, ?_, hsleep, ?_, ?_, ?_, ?_⟩
  · unfold Duration.Minute Duration.Second; rw [hns]; omega
  · unfold Time.Nanosecond Duration.Second; rw [hns]; omega
  · rw [hns]; omega
  · unfold Duration.Minute Duration.Second; rw [hns]; omega
  · rw [hsleep, hns]; omega
  · unfold Duration.Second; rw [hsleep, hns]; omega
  · unfold Duration.Minute Duration.Second
    intro h
    rw [hsleep, hns]
    omega
  · intro h
    unfold Time.Second Time.abs
    omega

/-- At Monday, January 1, 2024, 09:00:00 UTC, an instant on a minute, the first
wake instant is one minute later and the sleep is 60 seconds. -/
theorem nextTick_bounds_mondayNine :
    mondayNine.ns % Duration.Minute = 0 ∧
    ((nextTick mondayNine).ns = mondayNine.ns + Duration.Minute ∧
      firstSleep mondayNine = 60 * Duration.Second) :=
  ⟨by decide, (nextTick_bounds mondayNine).2.2.2.2.2.2.2.2.1 (by decide)⟩

/-- Claim C17 fails on a wall clock 19 minutes 32 seconds ahead of UTC.  Started
at Monday, January 1, 2024, 12:05:00 there, the dispatch loop computes a first
wake instant that reads 12:05:32 on that wall clock: its second is 32, not zero,
so it is no minute boundary of the wall clock.  Its nanosecond is zero and the
sleep is 32 seconds, within the bounds of the claim. -/
theorem nextTick_second_not_zero :
    (noonFive.Year = 2024 ∧ noonFive.Month = 1 ∧ noonFive.Day = 1 ∧ noonFive.Hour = 12 ∧
      noonFive.Minute = 5 ∧ noonFive.Second = 0 ∧ noonFive.Nanosecond = 0) ∧
    ((nextTick noonFive).Year = 2024 ∧ (nextTick noonFive).Month = 1 ∧
      (nextTick noonFive).Day = 1 ∧ (nextTick noonFive).Hour = 12 ∧
      (nextTick noonFive).Minute = 5 ∧ (nextTick noonFive).Second = 32 ∧
      (nextTick noonFive).Nanosecond = 0) ∧
    firstSleep noonFive = 32 * Duration.Second := by
  decide

/-- Claim C18.  Every job of the collection `LoadConfig` returns has a schedule
of five fields; its five sets are what `parseField` returns for these fields in
the five domains; each set is non-empty and holds values of its domain only; and
`parseSchedule` run on the job again succeeds and leaves it as it is. -/
theorem LoadConfig_jobs_fully_built (file : Option File) (cfg : Config)
    (h : LoadConfig file = some (.ok cfg)) (job : Job) (hj : job ∈ cfg.Jobs) :
    (∃ f0 f1 f2 f3 f4, Fields job.Schedule = [f0, f1, f2, f3, f4] ∧
      parseField f0 0 59 = some (.ok job.minutes) ∧
      parseField f1 0 23 = some (.ok job.hours) ∧
      parseField f2 1 31 = some (.ok job.daysOfMonth) ∧
      parseField f3 1 12 = some (.ok job.months) ∧
      parseField f4 0 6 = some (.ok job.daysOfWeek)) ∧
    (job.minutes.Nonempty ∧ job.hours.Nonempty ∧ job.daysOfMonth.Nonempty ∧
      job.months.Nonempty ∧ job.daysOfWeek.Nonempty) ∧
    ((∀ v ∈ job.minutes, 0 ≤ v ∧ v ≤ 59) ∧ (∀ v ∈ job.hours, 0 ≤ v ∧ v ≤ 23) ∧
      (∀ v ∈ job.daysOfMonth, 1 ≤ v ∧ v ≤ 31) ∧ (∀ v ∈ job.months, 1 ≤ v ∧ v ≤ 12) ∧
      (∀ v ∈ job.daysOfWeek, 0 ≤ v ∧ v ≤ 6)) ∧
    job.parseSchedule = some (job, none) := by
  have hline : ∃ text, lineJob text = some job := by
    cases file with
    | none => simp [LoadConfig] at h
    | some f =>
      rw [LoadConfig_eq] at h
      split at h
      · cases h
      · split at h
        · cases h
        · simp only [Option.some.injEq, Except.ok.injEq] at h
          subst h
          obtain ⟨text, _, ht⟩ := List.mem_filterMap.1 hj
          exact ⟨text, ht⟩
  obtain ⟨text, ht⟩ := hline
  obtain ⟨f0, f1, f2, f3, f4, hF, h0, h1, h2, h3, h4⟩ := lineJob_fully_built text job ht
  obtain ⟨s0, n0⟩ := fieldResult_sound f0 0 59 _ h0
  obtain ⟨s1, n1⟩ := fieldResult_sound f1 0 23 _ h1
  obtain ⟨s2, n2⟩ := fieldResult_sound f2 1 31 _ h2
  obtain ⟨s3, n3⟩ := fieldResult_sound f3 1 12 _ h3
  obtain ⟨s4, n4⟩ := fieldResult_sound f4 0 6 _ h4
  refine ⟨⟨f0, f1, f2, f3, f4, hF, ?_, ?_, ?_, ?_, ?_⟩,
    ⟨n0 (by decide), n1 (by decide), n2 (by decide), n3 (by decide), n4 (by decide)⟩,
    ⟨s0, s1, s2, s3, s4⟩, ?_⟩
  · rw [parseField_eq f0 0 59 (by decide) (by decide), h0]
  · rw [parseField_eq f1 0 23 (by decide) (by decide), h1]
  · rw [parseField_eq f2 1 31 (by decide) (by decide), h2]
  · rw [parseField_eq f3 1 12 (by decide) (by decide), h3]
  · rw [parseField_eq f4 0 6 (by decide) (by decide), h4]
  · rw [parseSchedule_five job f0 f1 f2 f3 f4 hF, h0, h1, h2, h3, h4, scheduleResult_self]

/-- Claim C18 at the file of a comment line, the job line `0 9 * * 1 echo hello`
and a four-field line, whose one job is `mondayJob`. -/
theorem LoadConfig_jobs_fully_built_witness :
    (LoadConfig (some threeLineFile) = some (.ok ⟨[mondayJob]⟩) ∧
      mondayJob ∈ (⟨[mondayJob]⟩ : Config).Jobs) ∧
    (mondayJob.minutes.Nonempty ∧ mondayJob.hours.Nonempty ∧ mondayJob.daysOfMonth.Nonempty ∧
      mondayJob.months.Nonempty ∧ mondayJob.daysOfWeek.Nonempty) ∧
    mondayJob.parseSchedule = some (mondayJob, none) := by
  have hm : mondayJob ∈ (⟨[mondayJob]⟩ : Config).Jobs := List.mem_singleton.2 rfl
  have h := LoadConfig_jobs_fully_built (some threeLineFile) ⟨[mondayJob]⟩
    threeLineFile_loads mondayJob hm
  exact ⟨⟨threeLineFile_loads, hm⟩, h.2.1, h.2.2.2⟩

/-- Claim C19.  For a line of six fields or more, the schedule `LoadConfig`
builds, the first five fields joined by single spaces, is cut by `strings.Fields`
into exactly these five fields.  So `parseSchedule` on the job of the line
returns, never with the field-count error, and when it returns an error one of
the five fields does not compile in its domain; and when the body of the loop
leaves the jobs as they were for a line that is no comment, one of its first five
fields does not compile. -/
theorem schedulePart_has_five_fields (line cmd : GoString) (h : 6 ≤ (Fields line).length) :
    Fields (Join ((Fields line).take 5) [' ']) = (Fields line).take 5 ∧
    (Fields (Join ((Fields line).take 5) [' '])).length = 5 ∧
    (∃ j' err,
      Job.parseSchedule
        { Schedule := Join ((Fields line).take 5) [' '], FullCommand := cmd } =
          some (j', err) ∧
      (∀ n s, err ≠ some (.fieldCount n s)) ∧
      (err ≠ none →
        (∃ e, parseField ((Fields line).getD 0 []) 0 59 = some (.error e)) ∨
        (∃ e, parseField ((Fields line).getD 1 []) 0 23 = some (.error e)) ∨
        (∃ e, parseField ((Fields line).getD 2 []) 1 31 = some (.error e)) ∨
        (∃ e, parseField ((Fields line).getD 3 []) 1 12 = some (.error e)) ∨
        (∃ e, parseField ((Fields line).getD 4 []) 0 6 = some (.error e)))) ∧
    (∀ jobs, HasPrefix (TrimSpace line) ['#'] = false → loadLine jobs line = some jobs →
      (∃ e, parseField ((Fields line).getD 0 []) 0 59 = some (.error e)) ∨
      (∃ e, parseField ((Fields line).getD 1 []) 0 23 = some (.error e)) ∨
      (∃ e, parseField ((Fields line).getD 2 []) 1 31 = some (.error e)) ∨
      (∃ e, parseField ((Fields line).getD 3 []) 1 12 = some (.error e)) ∨
      (∃ e, parseField ((Fields line).getD 4 []) 0 6 = some (.error e))) := by
  obtain ⟨f0, f1, f2, f3, f4, f5, rest, hF⟩ := length_six _ h
  have hmem := Fields_mem line
  rw [hF] at hmem
  obtain ⟨g0, g1, g2, g3, g4⟩ := getD_cons5 f0 f1 f2 f3 f4 f5 rest
  have htake : (f0 :: f1 :: f2 :: f3 :: f4 :: f5 :: rest).take 5 = [f0, f1, f2, f3, f4] := rfl
  have hj : Fields (Join [f0, f1, f2, f3, f4] [' ']) = [f0, f1, f2, f3, f4] := by
    apply Fields_Join
    intro f hf
    apply hmem
    simp only [List.mem_cons] at hf ⊢
    tauto
  have hfail : ∀ (j' : Job) (err : ScheduleError),
      scheduleResult
        { Schedule := Join [f0, f1, f2, f3, f4] [' '], FullCommand := cmd }
        (fieldResult f0 0 59) (fieldResult f1 0 23) (fieldResult f2 1 31)
        (fieldResult f3 1 12) (fieldResult f4 0 6) = (j', some err) →
      (∃ e, parseField f0 0 59 = some (.error e)) ∨
      (∃ e, parseField f1 0 23 = some (.error e)) ∨
      (∃ e, parseField f2 1 31 = some (.error e)) ∨
      (∃ e, parseField f3 1 12 = some (.error e)) ∨
      (∃ e, parseField f4 0 6 = some (.error e)) := by
    intro j' err hs
    rw [parseField_eq f0 0 59 (by decide) (by decide),
      parseField_eq f1 0 23 (by decide) (by decide),
      parseField_eq f2 1 31 (by decide) (by decide),
      parseField_eq f3 1 12 (by decide) (by decide),
      parseField_eq f4 0 6 (by decide) (by decide)]
    simp only [Option.some.injEq]
    exact scheduleResult_error_field _ _ _ _ _ _ _ _ hs
  rw [hF, htake, g0, g1, g2, g3, g4]
  refine ⟨hj, by rw [hj]; rfl, ?_, ?_⟩
  · rcases hs : scheduleResult
      { Schedule := Join [f0, f1, f2, f3, f4] [' '], FullCommand := cmd }
      (fieldResult f0 0 59) (fieldResult f1 0 23) (fieldResult f2 1 31)
      (fieldResult f3 1 12) (fieldResult f4 0 6) with ⟨j', _ | err⟩
    · refine ⟨j', none, (parseSchedule_five _ f0 f1 f2 f3 f4 hj).trans (congrArg some hs), ?_, ?_⟩
      · intro n s e; cases e
      · intro hne; exact absurd rfl hne
    · refine ⟨j', some err,
        (parseSchedule_five _ f0 f1 f2 f3 f4 hj).trans (congrArg some hs), ?_, ?_⟩
      · intro n s e
        have := scheduleResult_not_fieldCount
          { Schedule := Join [f0, f1, f2, f3, f4] [' '], FullCommand := cmd }
          (fieldResult f0 0 59) (fieldResult f1 0 23) (fieldResult f2 1 31)
          (fieldResult f3 1 12) (fieldResult f4 0 6) n s
        rw [hs] at this
        exact this e
      · intro _
        exact hfail j' err hs
  · intro jobs hp hl
    rw [loadLine_eq] at hl
    have hnone : lineJob line = none := by
      cases hlj : lineJob line with
      | none => rfl
      | some j => rw [hlj] at hl; simp at hl
    have hFt : Fields (TrimSpace line) = f0 :: f1 :: f2 :: f3 :: f4 :: f5 :: rest := by
      rw [Fields_TrimSpace, hF]
    have hne : TrimSpace line ≠ [] := by
      intro e
      rw [e] at hFt
      cases hFt
    unfold lineJob at hnone
    have hc : ¬ (TrimSpace line = [] ∨ HasPrefix (TrimSpace line) ['#'] = true) := by
      rintro (e | e)
      · exact hne e
      · rw [hp] at e; cases e
    simp only [hc, if_false, hFt] at hnone
    rcases hs : scheduleResult
      { Schedule := Join [f0, f1, f2, f3, f4] [' '], FullCommand := Join (f5 :: rest) [' '] }
      (fieldResult f0 0 59) (fieldResult f1 0 23) (fieldResult f2 1 31)
      (fieldResult f3 1 12) (fieldResult f4 0 6) with ⟨j', _ | err⟩
    · rw [hs] at hnone
      cases hnone
    · rw [parseField_eq f0 0 59 (by decide) (by decide),
        parseField_eq f1 0 23 (by decide) (by decide),
        parseField_eq f2 1 31 (by decide) (by decide),
        parseField_eq f3 1 12 (by decide) (by decide),
        parseField_eq f4 0 6 (by decide) (by decide)]
      simp only [Option.some.injEq]
      exact scheduleResult_error_field _ _ _ _ _ _ _ _ hs

/-- Claim C19 at the line `60 24 * * * cmd`: the schedule `60 24 * * *` has five
fields again and the line is skipped for its minute field. -/
theorem schedulePart_has_five_fields_witness :
    6 ≤ (Fields "60 24 * * * cmd".toList).length ∧
    Fields (Join ((Fields "60 24 * * * cmd".toList).take 5) [' ']) =
      (Fields "60 24 * * * cmd".toList).take 5 ∧
    (Fields (Join ((Fields "60 24 * * * cmd".toList).take 5) [' '])).length = 5 ∧
    Join ((Fields "60 24 * * * cmd".toList).take 5) [' '] = "60 24 * * *".toList ∧
    loadLine [] "60 24 * * * cmd".toList = some [] :=
  have h : 6 ≤ (Fields "60 24 * * * cmd".toList).length := by decide
  ⟨h, (schedulePart_has_five_fields "60 24 * * * cmd".toList "cmd".toList h).1,
    (schedulePart_has_five_fields "60 24 * * * cmd".toList "cmd".toList h).2.1,
    by decide, by decide⟩

/-- Claim C20.  A schedule of five wildcards compiles, to the five whole
domains, and the job is due at every timestamp: the minute, hour, day of the
month, month and weekday of any timestamp, truncated or not, lie in `[0, 59]`,
`[0, 23]`, `[1, 31]`, `[1, 12]` and `[0, 6]`. -/
theorem wildcard_schedule_always_due (j : Job)
    (h : Fields j.Schedule = [['*'], ['*'], ['*'], ['*'], ['*']]) :
    ∃ j', j.parseSchedule = some (j', none) ∧
      j'.minutes = Finset.Icc 0 59 ∧ j'.hours = Finset.Icc 0 23 ∧
      j'.daysOfMonth = Finset.Icc 1 31 ∧ j'.months = Finset.Icc 1 12 ∧
      j'.daysOfWeek = Finset.Icc 0 6 ∧
      (∀ t : Time, j'.ShouldRun t = true) ∧
      (∀ t : Time, (0 ≤ t.Minute ∧ t.Minute ≤ 59) ∧ (0 ≤ t.Hour ∧ t.Hour ≤ 23) ∧
        (1 ≤ t.Day ∧ t.Day ≤ 31) ∧ (1 ≤ t.Month ∧ t.Month ≤ 12) ∧
        (0 ≤ t.Weekday ∧ t.Weekday ≤ 6)) := by
  have e : ∀ lo hi, fieldResult ['*'] lo hi = .ok (Finset.Icc lo hi) := by
    intro lo hi
    simp [fieldResult]
  refine ⟨_, (parseSchedule_five j _ _ _ _ _ h).trans (by rw [e, e, e, e, e]; rfl),
    rfl, rfl, rfl, rfl, rfl, ?_, Time_fields_in_domain⟩
  intro t
  rw [ShouldRun_iff_truncated]
  obtain ⟨b0, b1, b2, b3, b4⟩ := Time_fields_in_domain (t.Truncate Duration.Minute)
  simp only [Finset.mem_Icc]
  exact ⟨b0, b1, b2, b3, b4⟩

/-- Claim C20 at the schedule `* * * * *`: the job is due at 09:00:10 on the wall
clock of Monrovia in 1970 and at 12:05:59 on the wall clock of Amsterdam. -/
theorem wildcard_schedule_always_due_witness :
    Fields "* * * * *".toList = [['*'], ['*'], ['*'], ['*'], ['*']] ∧
    Job.parseSchedule { Schedule := "* * * * *".toList, FullCommand := "cmd".toList } =
      some (everyMinuteJob, none) ∧
    everyMinuteJob.ShouldRun monroviaMonday = true ∧
    everyMinuteJob.ShouldRun noonFiveLate = true := by
  have hF : Fields "* * * * *".toList = [['*'], ['*'], ['*'], ['*'], ['*']] := by decide
  obtain ⟨j', hp, _, _, _, _, _, hdue, _⟩ := wildcard_schedule_always_due
    { Schedule := "* * * * *".toList, FullCommand := "cmd".toList } hF
  rw [everyMinuteJob_parses] at hp
  simp only [Option.some.injEq, Prod.mk.injEq, and_true] at hp
  subst hp
  exact ⟨hF, everyMinuteJob_parses, hdue _, hdue _⟩

end Corn
